import Mathlib

/-
  Verification development for the text layout reconstructor of the
  screenOCR repository (file ocr_engine.py, class OCREngine).

  Strings are modelled as lists of characters.  Python integers are Int,
  image dimensions are Nat, and pixel arithmetic that Python performs on
  floats is modelled with exact rationals; the places where the float
  model is exact for the inputs that occur are noted at each definition.
-/

namespace ScreenOCR

/-- RecognizedFragment: one unit of recognized text, as built in
    rapidocr extraction from each detection item: text, top left corner
    coordinates, confidence (carried but unused downstream). -/
structure Frag where
  text : List Char
  x : Int
  y : Int
  conf : ℚ
deriving DecidableEq, Repr

/-- Shorthand turning a string literal into the list of characters model. -/
def cl (s : String) : List Char := s.toList

/-- Python str whitespace test: the exact set of code points CPython
    treats as whitespace, which drives str.strip, str.lstrip and
    str.isspace, and equally the regex class backslash s on str
    patterns. -/
def isPySpace (c : Char) : Bool :=
  c == '\t' || c == '\n' || c == '\u000b' || c == '\u000c' || c == '\r' ||
  c == '\u001c' || c == '\u001d' || c == '\u001e' || c == '\u001f' ||
  c == ' ' || c == '\u0085' || c == '\u00a0' || c == '\u1680' ||
  c == '\u2000' || c == '\u2001' || c == '\u2002' || c == '\u2003' ||
  c == '\u2004' || c == '\u2005' || c == '\u2006' || c == '\u2007' ||
  c == '\u2008' || c == '\u2009' || c == '\u200a' || c == '\u2028' ||
  c == '\u2029' || c == '\u202f' || c == '\u205f' || c == '\u3000'

/-- Python lstrip. -/
def pyLstrip (s : List Char) : List Char := s.dropWhile isPySpace

/-- Python rstrip. -/
def pyRstrip (s : List Char) : List Char := (s.reverse.dropWhile isPySpace).reverse

/-- Python strip. -/
def pyStrip (s : List Char) : List Char := pyRstrip (pyLstrip s)

/-- Length of the leading whitespace run, matching the source idiom
    len(line) - len(line.lstrip()). -/
def wsLen (s : List Char) : Nat := s.length - (pyLstrip s).length

/-- Number of leading space characters of a line. -/
def leadSpaces (s : List Char) : Nat := (s.takeWhile (fun c => c == ' ')).length

/-- Python s.split with separator newline:  always returns at least one
    (possibly empty) piece. -/
def splitNL : List Char → List (List Char)
  | [] => [[]]
  | c :: rest =>
    if c == '\n' then [] :: splitNL rest
    else
      match splitNL rest with
      | [] => [[c]]
      | l :: ls => (c :: l) :: ls

/-- Python newline join. -/
def joinNL : List (List Char) → List Char
  | [] => []
  | [l] => l
  | l :: l2 :: ls => l ++ '\n' :: joinNL (l2 :: ls)

/-- Python substring containment test (pat in s). -/
def hasSub (pat s : List Char) : Bool :=
  match s with
  | [] => pat.isEmpty
  | _ :: rest => pat.isPrefixOf s || hasSub pat rest

/-- Boolean holding when no character of the line is a newline. -/
def noNL (s : List Char) : Bool := s.all (fun c => c != '\n')

/-- Python word character for regex word boundaries, ASCII range. -/
def isWordCh (c : Char) : Bool := c.isAlphanum || c == '_'

/-- Word boundary before the current position: the previous character is
    absent or not a word character (callers only use it when the first
    matched character is a word character). -/
def bdryB (prev : Option Char) : Bool :=
  match prev with
  | none => true
  | some c => !isWordCh c

/-- Word boundary after a match: next character absent or not a word
    character. -/
def bdryA (s : List Char) : Bool :=
  match s with
  | [] => true
  | c :: _ => !isWordCh c

/-- Matcher at one scan position: given the previous original character
    (for word boundaries and lookbehind) and the remaining input, return
    the number of characters the match consumes together with the
    replacement text, or none when the pattern does not match here.  All
    matchers below consume at least one character when they match. -/
abbrev Matcher := Option Char → List Char → Option (Nat × List Char)

/-- Scanner implementing the semantics of re.sub for the patterns used in
    the source: scan left to right over the original text, replace each
    leftmost non overlapping match and resume after its end.  Fuel bounds
    the recursion; fuel equal to the input length is always enough since
    every accepted match consumes at least one character, and a match
    reported with zero consumption is treated as no match. -/
def subScanF (m : Matcher) : Nat → Option Char → List Char → List Char
  | _, _, [] => []
  | 0, _, s => s
  | fuel + 1, prev, c :: rest =>
    match m prev (c :: rest) with
    | some (n, repl) =>
      if n = 0 then c :: subScanF m fuel (some c) rest
      else repl ++ subScanF m fuel ((c :: rest).take n).getLast? ((c :: rest).drop n)
    | none => c :: subScanF m fuel (some c) rest

/-- Application of one substitution to a whole line. -/
def applySub (m : Matcher) (s : List Char) : List Char :=
  subScanF m s.length none s

/-- Literal prefix consumption. -/
def dropLit (lit s : List Char) : Option (List Char) :=
  if lit.isPrefixOf s then some (s.drop lit.length) else none

/-- Case insensitive literal prefix consumption; lit is given lowercase. -/
def dropLitCI (lit s : List Char) : Option (List Char) :=
  if (s.take lit.length).map Char.toLower = lit then some (s.drop lit.length) else none

/-- Regex sp plus: at least one whitespace character, greedy. -/
def dropSp1 (s : List Char) : Option (List Char) :=
  match s with
  | c :: rest => if isPySpace c then some (rest.dropWhile isPySpace) else none
  | [] => none

/-- Regex sp star: any run of whitespace, greedy. -/
def dropSp0 (s : List Char) : List Char := s.dropWhile isPySpace

/-
  The 38 substitutions of the method fix python syntax, in source order.
  Each matcher carries the original pattern in its comment.  Patterns are
  matched at one position; greedy repetition and the limited backtracking
  the concrete patterns can exhibit are resolved statically as noted.
-/

/-- Pattern: dot followed by three double quotes, replaced by three
    double quotes. -/
def tryR1 : Matcher := fun _ s =>
  match s with
  | '.' :: '"' :: '"' :: '"' :: _ => some (4, cl "\"\"\"")
  | _ => none

/-- Pattern: three double quotes, dot, double quote, replaced by three
    double quotes. -/
def tryR2 : Matcher := fun _ s =>
  match s with
  | '"' :: '"' :: '"' :: '.' :: '"' :: _ => some (5, cl "\"\"\"")
  | _ => none

/-- Pattern: caret, whitespace run, dot, whitespace run, double quote,
    replaced by a double quote.  Anchored: matches only at line start. -/
def tryR3 : Matcher := fun prev s =>
  match prev with
  | some _ => none
  | none =>
    match s.dropWhile isPySpace with
    | '.' :: s2 =>
      match s2.dropWhile isPySpace with
      | '"' :: s3 => some (s.length - s3.length, ['"'])
      | _ => none
    | _ => none

/-- Pattern: two double quotes then an ASCII letter, replaced by three
    double quotes and the letter. -/
def tryR4 : Matcher := fun _ s =>
  match s with
  | '"' :: '"' :: c :: _ =>
    if c.isAlpha then some (3, cl "\"\"\"" ++ [c]) else none
  | _ => none

/-- Pattern: lowercase letter then one or more groups of three double
    quotes up to end of line, replaced by the letter and three quotes.
    The repetition with the end anchor forces the run of quotes after the
    letter to extend to the end of the line with length a positive
    multiple of three. -/
def tryR5 : Matcher := fun _ s =>
  match s with
  | c :: rest =>
    if c.isLower && !rest.isEmpty && rest.all (fun d => d == '"')
        && decide (rest.length % 3 = 0) then
      some (1 + rest.length, c :: cl "\"\"\"")
    else none
  | [] => none

/-- Helper for the quadruple quote pattern: given the captured group one
    and the remaining input, greedily consume complete groups of four
    double quotes. -/
def tryR6Quotes (g1 rest : List Char) : Option (Nat × List Char) :=
  let q := (rest.takeWhile (fun d => d == '"')).length
  if 4 ≤ q then some (g1.length + 4 * (q / 4), g1 ++ cl "\"\"\"")
  else none

/-- Pattern: group of line start or one non quote character, then one or
    more groups of four double quotes, replaced by the captured group and
    three quotes.  At line start the empty alternative is tried first. -/
def tryR6 : Matcher := fun prev s =>
  match prev with
  | none =>
    match tryR6Quotes [] s with
    | some r => some r
    | none =>
      match s with
      | c :: rest => if c == '"' then none else tryR6Quotes [c] rest
      | [] => none
  | some _ =>
    match s with
    | c :: rest => if c == '"' then none else tryR6Quotes [c] rest
    | [] => none

/-- Pattern: two double quotes then a dot, replaced by three quotes. -/
def tryR7 : Matcher := fun _ s =>
  match s with
  | '"' :: '"' :: '.' :: _ => some (3, cl "\"\"\"")
  | _ => none

/-- Pattern: word boundary, the word import, then a letter, case
    insensitive, replaced by the captured word, a space, the letter. -/
def tryR8 : Matcher := fun prev s =>
  if bdryB prev && decide ((s.take 6).map Char.toLower = cl "import") then
    match s.drop 6 with
    | c :: _ => if c.isAlpha then some (7, s.take 6 ++ [' ', c]) else none
    | [] => none
  else none

/-- Pattern: word boundary, the word from, then a letter, case
    insensitive, replaced by the captured word, a space, the letter. -/
def tryR9 : Matcher := fun prev s =>
  if bdryB prev && decide ((s.take 4).map Char.toLower = cl "from") then
    match s.drop 4 with
    | c :: _ => if c.isAlpha then some (5, s.take 4 ++ [' ', c]) else none
    | [] => none
  else none

/-- Pattern: underscore find, spaces, screenshot, spaces, underscore,
    optional spaces, tool; replaced by the joined method name. -/
def tryR10 : Matcher := fun _ s =>
  match dropLit (cl "_find") s with
  | none => none
  | some s1 =>
    match dropSp1 s1 with
    | none => none
    | some s2 =>
      match dropLit (cl "screenshot") s2 with
      | none => none
      | some s3 =>
        match dropSp1 s3 with
        | none => none
        | some s4 =>
          match dropLit (cl "_") s4 with
          | none => none
          | some s5 =>
            match dropLit (cl "tool") (dropSp0 s5) with
            | none => none
            | some s6 => some (s.length - s6.length, cl "_find_screenshot_tool")

/-- Pattern: underscore find, spaces, screenshot, spaces, tool, with a
    lookahead for an opening parenthesis; replaced by the joined name. -/
def tryR11 : Matcher := fun _ s =>
  match dropLit (cl "_find") s with
  | none => none
  | some s1 =>
    match dropSp1 s1 with
    | none => none
    | some s2 =>
      match dropLit (cl "screenshot") s2 with
      | none => none
      | some s3 =>
        match dropSp1 s3 with
        | none => none
        | some s4 =>
          match dropLit (cl "tool") s4 with
          | none => none
          | some s5 =>
            match s5 with
            | '(' :: _ => some (s.length - s5.length, cl "_find_screenshot_tool")
            | _ => none

/-- Pattern: underscore find, spaces, screenshot, optional spaces, end of
    line; replaced by the joined name. -/
def tryR12 : Matcher := fun _ s =>
  match dropLit (cl "_find") s with
  | none => none
  | some s1 =>
    match dropSp1 s1 with
    | none => none
    | some s2 =>
      match dropLit (cl "screenshot") s2 with
      | none => none
      | some s3 =>
        if (dropSp0 s3).isEmpty then some (s.length, cl "_find_screenshot")
        else none

/-- Pattern: self dot, optional spaces, optional underscore, optional
    spaces, find, spaces, screenshot; replaced by the joined form. -/
def tryR13 : Matcher := fun _ s =>
  match dropLit (cl "self.") s with
  | none => none
  | some s1 =>
    let t1 := dropSp0 s1
    let t2 := match t1 with
      | '_' :: r => r
      | _ => t1
    match dropLit (cl "find") (dropSp0 t2) with
    | none => none
    | some t3 =>
      match dropSp1 t3 with
      | none => none
      | some t4 =>
        match dropLit (cl "screenshot") t4 with
        | none => none
        | some t5 => some (s.length - t5.length, cl "self._find_screenshot")

/-- Pattern: self dot, spaces, letter f with a lookahead for ind;
    replaced by self dot underscore f. -/
def tryR14 : Matcher := fun _ s =>
  match dropLit (cl "self.") s with
  | none => none
  | some s1 =>
    match dropSp1 s1 with
    | none => none
    | some s2 =>
      match s2 with
      | 'f' :: s3 =>
        if (cl "ind").isPrefixOf s3 then some (s.length - s3.length, cl "self._f")
        else none
      | _ => none

/-- Pattern: word boundary, underscore find, spaces, screenshot; replaced
    by the joined form. -/
def tryR15 : Matcher := fun prev s =>
  if bdryB prev then
    match dropLit (cl "_find") s with
    | none => none
    | some s1 =>
      match dropSp1 s1 with
      | none => none
      | some s2 =>
        match dropLit (cl "screenshot") s2 with
        | none => none
        | some s3 => some (s.length - s3.length, cl "_find_screenshot")
  else none

/-- Pattern: closing parenthesis, spaces, None, optional spaces, colon;
    replaced by an arrow return annotation. -/
def tryR16 : Matcher := fun _ s =>
  match s with
  | ')' :: s1 =>
    match dropSp1 s1 with
    | none => none
    | some s2 =>
      match dropLit (cl "None") s2 with
      | none => none
      | some s3 =>
        match dropSp0 s3 with
        | ':' :: s4 => some (s.length - s4.length, cl ") -> None:")
        | _ => none
  | _ => none

/-- Pattern: closing bracket, spaces, None, optional spaces, colon;
    replaced by an arrow return annotation. -/
def tryR17 : Matcher := fun _ s =>
  match s with
  | ']' :: s1 =>
    match dropSp1 s1 with
    | none => none
    | some s2 =>
      match dropLit (cl "None") s2 with
      | none => none
      | some s3 =>
        match dropSp0 s3 with
        | ':' :: s4 => some (s.length - s4.length, cl "] -> None:")
        | _ => none
  | _ => none

/-- Pattern: word boundary, def, spaces, one or two underscores, init,
    one or two underscores, optional spaces, open parenthesis; replaced
    by the canonical dunder init header. -/
def tryR18 : Matcher := fun prev s =>
  if bdryB prev then
    match dropLit (cl "def") s with
    | none => none
    | some s1 =>
      match dropSp1 s1 with
      | none => none
      | some s2 =>
        match s2 with
        | '_' :: t1 =>
          let t2 := match t1 with
            | '_' :: r => r
            | _ => t1
          match dropLit (cl "init") t2 with
          | none => none
          | some t3 =>
            match t3 with
            | '_' :: u1 =>
              let u2 := match u1 with
                | '_' :: r => r
                | _ => u1
              match dropSp0 u2 with
              | '(' :: u3 => some (s.length - u3.length, cl "def __init__(")
              | _ => none
            | _ => none
        | _ => none
  else none

/-- Pattern: word boundary, init, spaces, self and closing parenthesis;
    replaced by the dunder init call with self. -/
def tryR19 : Matcher := fun prev s =>
  if bdryB prev then
    match dropLit (cl "init") s with
    | none => none
    | some s1 =>
      match dropSp1 s1 with
      | none => none
      | some s2 =>
        match dropLit (cl "self)") s2 with
        | none => none
        | some s3 => some (s.length - s3.length, cl "__init__(self)")
  else none

/-- Pattern: word boundary, init, optional spaces, open parenthesis;
    replaced by the dunder init opener. -/
def tryR20 : Matcher := fun prev s =>
  if bdryB prev then
    match dropLit (cl "init") s with
    | none => none
    | some s1 =>
      match dropSp0 s1 with
      | '(' :: s2 => some (s.length - s2.length, cl "__init__(")
      | _ => none
  else none

/-- Pattern: word boundary, init, word boundary, with a whitespace
    lookahead; replaced by dunder init. -/
def tryR21 : Matcher := fun prev s =>
  if bdryB prev then
    match dropLit (cl "init") s with
    | none => none
    | some s1 =>
      match s1 with
      | c :: _ => if isPySpace c then some (4, cl "__init__") else none
      | [] => none
  else none

/-- Pattern: word boundary, optional underscore, name, optional
    underscore, optional spaces, double equals; replaced by the dunder
    name comparison. -/
def tryR22 : Matcher := fun prev s =>
  if bdryB prev then
    let t1 := match s with
      | '_' :: r => r
      | _ => s
    match dropLit (cl "name") t1 with
    | none => none
    | some t2 =>
      let t3 := match t2 with
        | '_' :: r => r
        | _ => t2
      match dropLit (cl "==") (dropSp0 t3) with
      | none => none
      | some t4 => some (s.length - t4.length, cl "__name__ ==")
  else none

/-- Pattern: double equals, optional spaces, quote, optional underscore,
    main, optional underscore, quote; replaced by the dunder main
    comparison. -/
def tryR23 : Matcher := fun _ s =>
  match dropLit (cl "==") s with
  | none => none
  | some s1 =>
    match dropSp0 s1 with
    | q1 :: t1 =>
      if q1 == '"' || q1 == '\'' then
        let t2 := match t1 with
          | '_' :: r => r
          | _ => t1
        match dropLit (cl "main") t2 with
        | none => none
        | some t3 =>
          let t4 := match t3 with
            | '_' :: r => r
            | _ => t3
          match t4 with
          | q2 :: t5 =>
            if q2 == '"' || q2 == '\'' then
              some (s.length - t5.length, cl "== \"__main__\"")
            else none
          | [] => none
      else none
    | [] => none

/-- Whole word case insensitive replacement; the negative lookbehind for
    a letter in the source patterns is subsumed by the word boundary. -/
def tryWordCI (w repl : List Char) : Matcher := fun prev s =>
  if bdryB prev && decide ((s.take w.length).map Char.toLower = w)
      && bdryA (s.drop w.length) then
    some (w.length, repl)
  else none

/-- Pattern: whole word optional, case insensitive, capitalized. -/
def tryR24 : Matcher := tryWordCI (cl "optional") (cl "Optional")

/-- Pattern: whole word tuple, case insensitive, capitalized. -/
def tryR25 : Matcher := tryWordCI (cl "tuple") (cl "Tuple")

/-- Pattern: whole word list, case insensitive, capitalized. -/
def tryR26 : Matcher := tryWordCI (cl "list") (cl "List")

/-- Pattern: whole word dict, case insensitive, capitalized. -/
def tryR27 : Matcher := tryWordCI (cl "dict") (cl "Dict")

/-- Pattern: whole word set, case insensitive, capitalized. -/
def tryR28 : Matcher := tryWordCI (cl "set") (cl "Set")

/-- Pattern: word boundary, class, spaces, lowercase letter; the lambda
    replacement writes class, one space, and the upper case letter. -/
def tryR29 : Matcher := fun prev s =>
  if bdryB prev then
    match dropLit (cl "class") s with
    | none => none
    | some s1 =>
      match dropSp1 s1 with
      | none => none
      | some s2 =>
        match s2 with
        | c :: s3 =>
          if c.isLower then some (s.length - s3.length, cl "class " ++ [c.toUpper])
          else none
        | [] => none
  else none

/-- Pattern: the whole word Portalscreenshot, replaced by camel case. -/
def tryR30 : Matcher := fun prev s =>
  if bdryB prev && (cl "Portalscreenshot").isPrefixOf s && bdryA (s.drop 16) then
    some (16, cl "PortalScreenshot")
  else none

/-- Helper for the camel case screenshot pattern: find the greatest
    positive k such that after dropping k characters the input continues
    with the word screenshot case insensitively followed by a word
    boundary. -/
def screenshotSplit (rest : List Char) : Nat → Option Nat
  | 0 => none
  | k + 1 =>
    if ((rest.drop (k + 1)).take 10).map Char.toLower = cl "screenshot"
        ∧ bdryA (rest.drop (k + 1 + 10)) = true then
      some (k + 1)
    else screenshotSplit rest k

/-- Pattern: a letter, one or more letters, then screenshot and a word
    boundary, case insensitive; replaced by the captured prefix and the
    capitalized word Screenshot.  The greedy inner repetition picks the
    longest letter run that still leaves the word screenshot. -/
def tryR31 : Matcher := fun _ s =>
  match s with
  | c :: rest =>
    if c.isAlpha then
      match screenshotSplit rest ((rest.takeWhile Char.isAlpha).length) with
      | some k => some (1 + k + 10, (c :: rest.take k) ++ cl "Screenshot")
      | none => none
    else none
  | [] => none

/-- Pattern: screenshot, spaces, tool, optional spaces, parentheses pair
    with optional inner spaces; replaced by the underscored call. -/
def tryR32 : Matcher := fun _ s =>
  match dropLit (cl "screenshot") s with
  | none => none
  | some s1 =>
    match dropSp1 s1 with
    | none => none
    | some s2 =>
      match dropLit (cl "tool") s2 with
      | none => none
      | some s3 =>
        match dropSp0 s3 with
        | '(' :: s4 =>
          match dropSp0 s4 with
          | ')' :: s5 => some (s.length - s5.length, cl "screenshot_tool()")
          | _ => none
        | _ => none

/-- Pattern: screenshot, spaces, tool, with a lookahead for whitespace,
    end of line, or a closing parenthesis; replaced by the underscored
    name. -/
def tryR33 : Matcher := fun _ s =>
  match dropLit (cl "screenshot") s with
  | none => none
  | some s1 =>
    match dropSp1 s1 with
    | none => none
    | some s2 =>
      match dropLit (cl "tool") s2 with
      | none => none
      | some s3 =>
        match s3 with
        | [] => some (s.length, cl "screenshot_tool")
        | c :: _ =>
          if isPySpace c || c == ')' then
            some (s.length - s3.length, cl "screenshot_tool")
          else none

/-- Pattern: self dot screenshot tool, spaces, self dot find, spaces,
    screenshot tool call; replaced by the assignment form. -/
def tryR34 : Matcher := fun _ s =>
  match dropLit (cl "self.screenshot_tool") s with
  | none => none
  | some s1 =>
    match dropSp1 s1 with
    | none => none
    | some s2 =>
      match dropLit (cl "self._find") s2 with
      | none => none
      | some s3 =>
        match dropSp1 s3 with
        | none => none
        | some s4 =>
          match dropLit (cl "screenshot_tool()") s4 with
          | none => none
          | some s5 =>
            some (s.length - s5.length,
              cl "self.screenshot_tool = self._find_screenshot_tool()")

/-- Pattern: self dot word run, spaces, self dot optional underscore word
    run and open parenthesis; replaced by the two groups joined with an
    equals sign.  Since the underscore is itself a word character the
    second group is self dot, a nonempty word run, and the parenthesis. -/
def tryR35 : Matcher := fun _ s =>
  match dropLit (cl "self.") s with
  | none => none
  | some s1 =>
    let w1 := s1.takeWhile isWordCh
    if w1.isEmpty then none
    else
      match dropSp1 (s1.drop w1.length) with
      | none => none
      | some s2 =>
        match dropLit (cl "self.") s2 with
        | none => none
        | some s3 =>
          let w2 := s3.takeWhile isWordCh
          if w2.isEmpty then none
          else
            match s3.drop w2.length with
            | '(' :: s4 =>
              some (s.length - s4.length,
                cl "self." ++ w1 ++ cl " = " ++ cl "self." ++ w2 ++ ['('])
            | _ => none

/-- Pattern: Initialize, spaces, connection dot, spaces, portal; replaced
    by the reordered docstring sentence. -/
def tryR36 : Matcher := fun _ s =>
  match dropLit (cl "Initialize") s with
  | none => none
  | some s1 =>
    match dropSp1 s1 with
    | none => none
    | some s2 =>
      match dropLit (cl "connection.") s2 with
      | none => none
      | some s3 =>
        match dropSp1 s3 with
        | none => none
        | some s4 =>
          match dropLit (cl "portal") s4 with
          | none => none
          | some s5 => some (s.length - s5.length, cl "Initialize portal connection.")

/-- Pattern: word boundary, self dot, spaces; replaced by self dot. -/
def tryR37 : Matcher := fun prev s =>
  if bdryB prev then
    match dropLit (cl "self.") s with
    | none => none
    | some s1 =>
      match dropSp1 s1 with
      | none => none
      | some s2 => some (s.length - s2.length, cl "self.")
  else none

/-- Pattern: negative lookbehind for a word character, self, then a
    lowercase letter or underscore; replaced by self dot and the captured
    character. -/
def tryR38 : Matcher := fun prev s =>
  if bdryB prev then
    match dropLit (cl "self") s with
    | none => none
    | some s1 =>
      match s1 with
      | c :: _ =>
        if c.isLower || c == '_' then some (5, cl "self." ++ [c]) else none
      | [] => none
  else none

/-- Substrings whose presence in the stripped line marks it as code in
    the docstring promotion test. -/
def codeHints : List (List Char) :=
  [cl "def ", cl "class ", cl "=", cl "(", cl ")", cl "[", cl "]",
   ['\x7b'], ['\x7d'], cl "if ", cl "for ", cl "while ", cl "return "]

/-- Substrings whose presence in the stripped next line lets the current
    line be promoted to a docstring. -/
def nextCodeHints : List (List Char) :=
  [cl "def ", cl "class ", cl "=", cl "(", cl ")", cl "self.",
   cl "return ", cl "for ", cl "if "]

/-- Python str lower, ASCII range. -/
def lowerStr (s : List Char) : List Char := s.map Char.toLower

/-- Docstring promotion step at the head of the per line loop: wrap a
    short line that looks like prose in triple quotes when the following
    line looks like code. -/
def wrapDocstring (line : List Char) (next? : Option (List Char)) : List Char :=
  let stripped := pyStrip line
  let isImportLine :=
    (cl "import ").isPrefixOf (lowerStr stripped)
      || (cl "from ").isPrefixOf (lowerStr stripped)
  let isCodeLine := codeHints.any (fun t => hasSub t stripped)
  if !isImportLine && !isCodeLine && decide (5 < stripped.length)
      && decide (stripped.length < 100)
      && !hasSub (cl "\"\"\"") line && !hasSub (cl "\"") line then
    match next? with
    | some nextLine =>
      let ns := pyStrip nextLine
      if nextCodeHints.any (fun t => hasSub t ns) then
        List.replicate (wsLen line) ' ' ++ cl "\"\"\"" ++ stripped ++ cl "\"\"\""
      else line
    | none => line
  else line

/-- First part of the substitution chain: the quote repairs and the
    spacing fixes of the import keywords, in source order. -/
def fixLineA (l0 : List Char) : List Char :=
  applySub tryR9 (applySub tryR8 (applySub tryR7 (applySub tryR6 (applySub tryR5
    (applySub tryR4 (applySub tryR3 (applySub tryR2 (applySub tryR1 l0))))))))

/-- Second part: the method name fixes, which the source runs only when
    the line holds no triple quote at that point. -/
def fixLineB (l : List Char) : List Char :=
  applySub tryR15 (applySub tryR14 (applySub tryR13 (applySub tryR12
    (applySub tryR11 (applySub tryR10 l)))))

/-- Third part: the remaining unconditional fixes, in source order. -/
def fixLineC (l : List Char) : List Char :=
  applySub tryR38 (applySub tryR37 (applySub tryR36 (applySub tryR35
    (applySub tryR34 (applySub tryR33 (applySub tryR32 (applySub tryR31
    (applySub tryR30 (applySub tryR29 (applySub tryR28 (applySub tryR27
    (applySub tryR26 (applySub tryR25 (applySub tryR24 (applySub tryR23
    (applySub tryR22 (applySub tryR21 (applySub tryR20 (applySub tryR19
    (applySub tryR18 (applySub tryR17 (applySub tryR16 l))))))))))))))))))))))

/-- Chain of the 38 substitutions on one line, in source order; the
    method name fixes run only when the line holds no triple quote at
    that point. -/
def fixLineCore (l0 : List Char) : List Char :=
  let lA := fixLineA l0
  fixLineC (if hasSub (cl "\"\"\"") lA then lA else fixLineB lA)

/-- One iteration of the fix loop: the docstring promotion reads the next
    line of the original split, then the substitution chain runs. -/
def fixLine (line : List Char) (next? : Option (List Char)) : List Char :=
  fixLineCore (wrapDocstring line next?)

/-- Map over the lines handing each its successor in the original list,
    mirroring the index based loop of the source. -/
def mapWithNext (f : List Char → Option (List Char) → List Char) :
    List (List Char) → List (List Char)
  | [] => []
  | [a] => [f a none]
  | a :: b :: rest => f a (some b) :: mapWithNext f (b :: rest)

/-- The method fix python syntax: split on newlines, fix each line, join. -/
def fixPythonSyntax (text : List Char) : List Char :=
  joinNL (mapWithNext fixLine (splitNL text))

/-- Loop of the docstring indentation normalization: scan indices from j
    up to the exclusive stop for the first line that is nonblank after
    stripping and holds no triple quote, returning its leading whitespace
    length. -/
def lookFrom (lines : List (List Char)) (j stop : Nat) : Option Nat :=
  if _h : j < stop then
    let nl := lines.getD j []
    let ns := pyStrip nl
    if !ns.isEmpty && !hasSub (cl "\"\"\"") ns then some (wsLen nl)
    else lookFrom lines (j + 1) stop
  else none
termination_by stop - j

/-- Lookahead of the normalization pass: indices i plus one up to the
    minimum of i plus three and the line count. -/
def findNextCodeIndent (lines : List (List Char)) (i : Nat) : Option Nat :=
  lookFrom lines (i + 1) (min (i + 3) lines.length)

/-- Per line step of the docstring indentation normalization. -/
def normalizeLineAt (lines : List (List Char)) (i : Nat) (line : List Char) :
    List Char :=
  if hasSub (cl "\"\"\"") line then
    match findNextCodeIndent lines i with
    | some ind => if 0 < ind then List.replicate ind ' ' ++ pyStrip line else line
    | none => line
  else line

/-- The method normalize indentation. -/
def normalizeIndentation (text : List Char) : List Char :=
  let lines := splitNL text
  joinNL (lines.enum.map (fun p => normalizeLineAt lines p.1 p.2))

/-
  The layout reconstruction of the method rapidocr extract.
-/

/-- Python round with ties to even, on exact rationals.  For the values
    this pipeline produces, integer offsets divided by 4, 6, 8 or 10, the
    float computation of the source is exact at every tie and never
    crosses a tie boundary, so the rational model is faithful. -/
def pyRound (q : ℚ) : ℤ :=
  let f : ℤ := q.floor
  if q - f < 1 / 2 then f
  else if 1 / 2 < q - f then f + 1
  else if f % 2 = 0 then f else f + 1

/-- Stable ascending sort of the fragments by y, modelling the Python
    list sort with the y key. -/
def sortByY (fs : List Frag) : List Frag :=
  List.insertionSort (fun a b => a.y ≤ b.y) fs

/-- Stable ascending sort of the fragments of one group by x. -/
def sortByX (fs : List Frag) : List Frag :=
  List.insertionSort (fun a b => a.x ≤ b.x) fs

/-- Ascending sort of integers, used for the x position list and the
    group keys. -/
def sortInts (xs : List Int) : List Int :=
  List.insertionSort (fun a b => a ≤ b) xs

/-- Baseline selection on the ascending x position list: the minimum,
    except that with more than three positions and a first gap more than
    double the second gap the second position is taken.  The source reads
    entries one and two only under the guard, so the defaults are never
    used. -/
def baselineX (xs : List Int) : Int :=
  let x0 := xs.getD 0 0
  if 3 < xs.length then
    let gap := xs.getD 1 0 - x0
    let next_gap := if 2 < xs.length then xs.getD 2 0 - xs.getD 1 0 else gap
    if gap > next_gap * 2 then xs.getD 1 0 else x0
  else x0

/-- Character width estimate from the image width buckets. -/
def charWidthOf (w : ℕ) : ℕ :=
  if w < 300 then 6 else if w < 600 then 8 else 10

/-- Vertical grouping tolerance.  The source computes the estimated line
    height as the integer part of five percent of the image height; on
    natural heights that is division by twenty, and the kept floating
    point error of the literal is far below the truncation step. -/
def yTolerance (h : ℕ) : ℕ :=
  let estimated := max 10 (h * 5 / 100)
  max 10 (estimated / 2)

/-- One step of the closest key search: the running state holds the best
    key and its distance, none standing for an infinite initial distance;
    a key replaces the state only when strictly closer and within the
    tolerance. -/
def closestKeyStep (y t : ℤ) (acc : Option (ℤ × ℤ)) (k : ℤ) : Option (ℤ × ℤ) :=
  let d := |y - k|
  match acc with
  | none => if d ≤ t then some (k, d) else none
  | some (k0, d0) => if d < d0 ∧ d ≤ t then some (k, d) else some (k0, d0)

/-- Closest existing group key within tolerance, walking the keys in
    insertion order as the dictionary iteration does. -/
def findClosestKey (y t : ℤ) (keys : List ℤ) : Option ℤ :=
  (keys.foldl (closestKeyStep y t) none).map Prod.fst

/-- Insertion of one fragment into the group association list: append to
    the closest group within tolerance, else start a new group keyed by
    the fragment y.  Keys are pairwise distinct, so updating every entry
    with the chosen key updates exactly one group. -/
def insertFrag (t : ℤ) (groups : List (ℤ × List Frag)) (f : Frag) :
    List (ℤ × List Frag) :=
  match findClosestKey f.y t (groups.map Prod.fst) with
  | some k => groups.map (fun g => if g.1 = k then (g.1, g.2 ++ [f]) else g)
  | none => groups ++ [(f.y, [f])]

/-- Grouping of the y sorted fragments into lines. -/
def groupByY (t : ℤ) (fs : List Frag) : List (ℤ × List Frag) :=
  fs.foldl (insertFrag t) []

/-- Python space join, used for merging the texts of one group. -/
def joinSp : List (List Char) → List Char
  | [] => []
  | [l] => l
  | l :: l2 :: ls => l ++ ' ' :: joinSp (l2 :: ls)

/-- Merged text of one group: member texts joined by single spaces. -/
def mergedText (g : List Frag) : List Char :=
  joinSp (g.map (fun f => f.text))

/-- Minimum x over a group, zero on the empty list which never occurs. -/
def groupMinX (g : List Frag) : Int :=
  match g.map (fun f => f.x) with
  | [] => 0
  | a :: r => r.foldl min a

/-- Offset clamping: negative offsets and offsets beyond half the image
    width collapse to zero.  The half width comparison is exact in the
    float arithmetic of the source. -/
def clampOffset (w : ℕ) (off : Int) : Int :=
  if off < 0 then 0
  else if (w : ℚ) * 0.5 < (off : ℚ) then 0
  else off

/-- Indentation level of a clamped offset: pixel offset to a character
    count, then to indent units of four spaces, clamped into zero to
    five. -/
def indentLevel (w : ℕ) (off : Int) : ℤ :=
  let spaces_count := pyRound ((off : ℚ) / (charWidthOf w : ℚ))
  max 0 (min 5 (pyRound ((spaces_count : ℚ) / 4)))

/-- Rendering of one group: sort members by x, join their texts, indent
    by the quantized offset from the baseline. -/
def renderLine (w : ℕ) (baseline : Int) (g : List Frag) : List Char :=
  let sortedG := sortByX g
  let merged := mergedText sortedG
  let off := clampOffset w (groupMinX sortedG - baseline)
  let lvl := indentLevel w off
  List.replicate (lvl * 4).toNat ' ' ++ merged

/-- Structured lines of the reconstruction: sort by y, group, walk the
    groups in ascending key order, render each. -/
def structuredLines (w h : ℕ) (frags : List Frag) : List (List Char) :=
  let fs := sortByY frags
  let min_x := baselineX (sortInts (fs.map (fun f => f.x)))
  let groups := groupByY ((yTolerance h : ℤ)) fs
  let ordered := List.insertionSort (fun a b => a.1 ≤ b.1) groups
  ordered.map (fun kg => renderLine w min_x kg.2)

/-- The whole reconstruction of the method rapidocr extract after the
    detection loop: empty detection list gives the empty string, else the
    structured text runs through the syntax fix pass and the docstring
    indentation normalization. -/
def rapidocrReconstruct (w h : ℕ) (frags : List Frag) : List Char :=
  if frags.isEmpty then []
  else normalizeIndentation (fixPythonSyntax (joinNL (structuredLines w h frags)))

/-- Whether the scan of one substitution finds a match anywhere along the
    line, walking the positions exactly as the scanner does. -/
def scanHits (m : Matcher) : Option Char → List Char → Bool
  | _, [] => false
  | prev, c :: rest => (m prev (c :: rest)).isSome || scanHits m (some c) rest

/-- A fragment with its confidence replaced by one: the observable data of
    a fragment, since the reconstruction never reads the confidence. -/
def scrubConf (f : Frag) : Frag := ⟨f.text, f.x, f.y, 1⟩

/-- Confidence scrub of one group entry. -/
def scrubGroup (kg : ℤ × List Frag) : ℤ × List Frag := (kg.1, kg.2.map scrubConf)

/-- The acceptance condition of the docstring lookahead at index j: the
    line at j strips to something nonempty that holds no triple quote. -/
def nextCodeCond (lines : List (List Char)) (j : Nat) : Bool :=
  let nl := lines.getD j []
  let ns := pyStrip nl
  !ns.isEmpty && !hasSub (cl "\"\"\"") ns

/-
  Infrastructure lemmas about the string model.
-/

theorem noNL_nil : noNL [] = true := rfl

theorem noNL_cons {c : Char} {l : List Char} :
    noNL (c :: l) = ((c != '\n') && noNL l) := by
  simp [noNL]

theorem noNL_append {a b : List Char} :
    noNL (a ++ b) = (noNL a && noNL b) := by
  simp [noNL, List.all_append]

theorem noNL_iff {l : List Char} : noNL l = true ↔ ∀ c ∈ l, c ≠ '\n' := by
  simp [noNL]

theorem noNL_of_subset {l l2 : List Char} (hsub : l2 ⊆ l) (h : noNL l = true) :
    noNL l2 = true := by
  rw [noNL_iff] at h ⊢
  exact fun c hc => h c (hsub hc)

theorem noNL_take {l : List Char} (n : ℕ) (h : noNL l = true) :
    noNL (l.take n) = true :=
  noNL_of_subset (List.take_subset n l) h

theorem noNL_drop {l : List Char} (n : ℕ) (h : noNL l = true) :
    noNL (l.drop n) = true :=
  noNL_of_subset (List.drop_subset n l) h

theorem noNL_takeWhile {l : List Char} (p : Char → Bool) (h : noNL l = true) :
    noNL (l.takeWhile p) = true :=
  noNL_of_subset (List.takeWhile_prefix p).sublist.subset h

theorem noNL_dropWhile {l : List Char} (p : Char → Bool) (h : noNL l = true) :
    noNL (l.dropWhile p) = true :=
  noNL_of_subset (List.dropWhile_suffix p).sublist.subset h

theorem noNL_replicate (n : ℕ) : noNL (List.replicate n ' ') = true := by
  rw [noNL_iff]
  intro c hc
  rw [List.eq_of_mem_replicate hc]
  decide

theorem noNL_reverse {l : List Char} (h : noNL l = true) :
    noNL l.reverse = true :=
  noNL_of_subset (fun c hc => by simpa using hc) h

theorem noNL_pyLstrip {l : List Char} (h : noNL l = true) :
    noNL (pyLstrip l) = true :=
  noNL_dropWhile _ h

theorem noNL_pyStrip {l : List Char} (h : noNL l = true) :
    noNL (pyStrip l) = true := by
  unfold pyStrip pyRstrip
  exact noNL_reverse (noNL_dropWhile _ (noNL_reverse (noNL_pyLstrip h)))

/-
  Lemmas about split and join on newlines.
-/

theorem splitNL_ne_nil (s : List Char) : splitNL s ≠ [] := by
  induction s with
  | nil => simp [splitNL]
  | cons c rest ih =>
    rw [splitNL]
    split
    · simp
    · cases h : splitNL rest with
      | nil => simp
      | cons l ls => simp

theorem noNL_of_mem_splitNL {s : List Char} {l : List Char}
    (h : l ∈ splitNL s) : noNL l = true := by
  induction s generalizing l with
  | nil =>
    simp [splitNL] at h
    simp [h, noNL]
  | cons c rest ih =>
    rw [splitNL] at h
    by_cases hc : c = '\n'
    · simp [hc] at h
      rcases h with h | h
      · simp [h, noNL]
      · exact ih h
    · have hcb : (c == '\n') = false := by simpa using hc
      rw [if_neg (by simp [hcb])] at h
      cases hsp : splitNL rest with
      | nil => exact absurd hsp (splitNL_ne_nil rest)
      | cons l0 ls =>
        rw [hsp] at h
        simp at h
        rcases h with h | h
        · subst h
          rw [noNL_cons]
          have : l0 ∈ splitNL rest := by rw [hsp]; exact List.mem_cons_self _ _
          simp [hcb, ih this, hc]
        · exact ih (by rw [hsp]; exact List.mem_cons_of_mem _ h)

theorem splitNL_of_noNL {l : List Char} (h : noNL l = true) :
    splitNL l = [l] := by
  induction l with
  | nil => rfl
  | cons c rest ih =>
    rw [noNL_cons, Bool.and_eq_true] at h
    rw [splitNL, if_neg (by simpa using h.1), ih h.2]

theorem splitNL_append {a rest : List Char} (h : noNL a = true) :
    splitNL (a ++ '\n' :: rest) = a :: splitNL rest := by
  induction a with
  | nil => simp [splitNL]
  | cons c a2 ih =>
    rw [noNL_cons, Bool.and_eq_true] at h
    rw [List.cons_append, splitNL, if_neg (by simpa using h.1), ih h.2]

theorem splitNL_joinNL {ls : List (List Char)} (hne : ls ≠ [])
    (h : ∀ l ∈ ls, noNL l = true) : splitNL (joinNL ls) = ls := by
  induction ls with
  | nil => exact absurd rfl hne
  | cons a ls ih =>
    cases ls with
    | nil =>
      rw [joinNL, splitNL_of_noNL (h a (List.mem_cons_self _ _))]
    | cons b ls2 =>
      rw [joinNL, splitNL_append (h a (List.mem_cons_self _ _))]
      rw [ih (List.cons_ne_nil _ _) (fun l hl => h l (List.mem_cons_of_mem _ hl))]

theorem length_splitNL_joinNL {ls : List (List Char)} (hne : ls ≠ [])
    (h : ∀ l ∈ ls, noNL l = true) :
    (splitNL (joinNL ls)).length = ls.length := by
  rw [splitNL_joinNL hne h]

/-
  Lemmas about the literal and whitespace consumers.
-/

theorem dropLit_eq_some {lit s s2 : List Char} :
    dropLit lit s = some s2 ↔ s = lit ++ s2 := by
  constructor
  · intro h
    unfold dropLit at h
    split at h
    · rename_i hp
      rw [List.isPrefixOf_iff_prefix] at hp
      obtain ⟨t, ht⟩ := hp
      injection h with h2
      subst ht
      rw [← h2, List.drop_left]
    · cases h
  · intro h
    subst h
    unfold dropLit
    rw [if_pos (by rw [List.isPrefixOf_iff_prefix]; exact ⟨s2, rfl⟩)]
    rw [List.drop_left]

theorem dropLit_space_none {lit : List Char} {c : Char} {t : List Char}
    (hlit : isPySpace (lit.headD 'a') = false) (hne : lit ≠ [])
    (hc : isPySpace c = true) : dropLit lit (c :: t) = none := by
  cases hd : dropLit lit (c :: t) with
  | none => rfl
  | some s2 =>
    rw [dropLit_eq_some] at hd
    cases lit with
    | nil => exact absurd rfl hne
    | cons x lit2 =>
      simp at hd
      simp at hlit
      rw [hd.1] at hc
      rw [hc] at hlit
      cases hlit

theorem dropSp1_eq_some {s s2 : List Char} (h : dropSp1 s = some s2) :
    ∃ c r, s = c :: r ∧ isPySpace c = true ∧ s2 = r.dropWhile isPySpace := by
  cases s with
  | nil => cases h
  | cons c r =>
    by_cases hc : isPySpace c = true
    · refine ⟨c, r, rfl, hc, ?_⟩
      simp only [dropSp1] at h
      rw [if_pos hc] at h
      injection h with h2
      rw [h2]
    · simp only [dropSp1] at h
      rw [if_neg hc] at h
      cases h

theorem pySpace_cases {c : Char} (hc : isPySpace c = true) :
    c = '\t' ∨ c = '\n' ∨ c = '\u000b' ∨ c = '\u000c' ∨ c = '\r' ∨
    c = '\u001c' ∨ c = '\u001d' ∨ c = '\u001e' ∨ c = '\u001f' ∨ c = ' ' ∨
    c = '\u0085' ∨ c = '\u00a0' ∨ c = '\u1680' ∨ c = '\u2000' ∨
    c = '\u2001' ∨ c = '\u2002' ∨ c = '\u2003' ∨ c = '\u2004' ∨
    c = '\u2005' ∨ c = '\u2006' ∨ c = '\u2007' ∨ c = '\u2008' ∨
    c = '\u2009' ∨ c = '\u200a' ∨ c = '\u2028' ∨ c = '\u2029' ∨
    c = '\u202f' ∨ c = '\u205f' ∨ c = '\u3000' := by
  simpa [isPySpace, or_assoc] using hc

theorem pySpace_toLower {c : Char} (hc : isPySpace c = true) :
    Char.toLower c = c := by
  rcases pySpace_cases hc with h | h | h | h | h | h | h | h | h | h | h | h | h | h | h | h | h | h | h | h | h | h | h | h | h | h | h | h | h <;> subst h <;> decide

theorem not_space_of_isLower {c : Char} (h : c.isLower = true) :
    isPySpace c = false := by
  cases hc : isPySpace c
  · rfl
  · rcases pySpace_cases hc with h2 | h2 | h2 | h2 | h2 | h2 | h2 | h2 | h2 | h2 | h2 | h2 | h2 | h2 | h2 | h2 | h2 | h2 | h2 | h2 | h2 | h2 | h2 | h2 | h2 | h2 | h2 | h2 | h2 <;> subst h2 <;> cases h

theorem not_space_of_isAlpha {c : Char} (h : c.isAlpha = true) :
    isPySpace c = false := by
  cases hc : isPySpace c
  · rfl
  · rcases pySpace_cases hc with h2 | h2 | h2 | h2 | h2 | h2 | h2 | h2 | h2 | h2 | h2 | h2 | h2 | h2 | h2 | h2 | h2 | h2 | h2 | h2 | h2 | h2 | h2 | h2 | h2 | h2 | h2 | h2 | h2 <;> subst h2 <;> cases h

theorem not_space_of_toLower {c x : Char} (h : Char.toLower c = x)
    (hx : isPySpace x = false) : isPySpace c = false := by
  cases hc : isPySpace c
  · rfl
  · rw [pySpace_toLower hc] at h
    rw [h] at hc
    rw [hc] at hx
    cases hx

/-
  Generic properties of the substitution scanner.  A matcher enjoying the
  three properties below keeps a line free of newlines and keeps the
  shape of a line made of an indentation prefix followed by content that
  starts with a non space character.
-/

/-- The matcher never writes a newline into a newline free line. -/
def MNoNL (m : Matcher) : Prop :=
  ∀ pr t n r, m pr t = some (n, r) → noNL t = true → noNL r = true

/-- The matcher never fires at a whitespace character. -/
def MNoSp (m : Matcher) : Prop :=
  ∀ pr c t n r, m pr (c :: t) = some (n, r) → isPySpace c = false

/-- The replacement is nonempty and starts with a non space character. -/
def MHead (m : Matcher) : Prop :=
  ∀ pr t n r, m pr t = some (n, r) → r ≠ [] ∧ isPySpace (r.headD 'a') = false

theorem subScanF_noNL {m : Matcher} (hm : MNoNL m) :
    ∀ (fuel : ℕ) (pr : Option Char) (s : List Char), noNL s = true →
      noNL (subScanF m fuel pr s) = true := by
  intro fuel
  induction fuel with
  | zero =>
    intro pr s hs
    cases s with
    | nil => exact hs
    | cons c rest => exact hs
  | succ fuel ih =>
    intro pr s hs
    cases s with
    | nil => exact hs
    | cons c rest =>
      rw [subScanF]
      have hsc : (c != '\n') = true ∧ noNL rest = true := by
        rw [noNL_cons, Bool.and_eq_true] at hs
        exact hs
      cases hmr : m pr (c :: rest) with
      | none =>
        rw [noNL_cons, Bool.and_eq_true]
        exact ⟨hsc.1, ih (some c) rest hsc.2⟩
      | some nr =>
        obtain ⟨n, repl⟩ := nr
        dsimp only
        by_cases hn : n = 0
        · rw [if_pos hn, noNL_cons, Bool.and_eq_true]
          exact ⟨hsc.1, ih (some c) rest hsc.2⟩
        · rw [if_neg hn, noNL_append, Bool.and_eq_true]
          refine ⟨hm pr (c :: rest) n repl hmr hs, ?_⟩
          exact ih _ _ (noNL_drop n hs)

theorem applySub_noNL {m : Matcher} (hm : MNoNL m) {s : List Char}
    (hs : noNL s = true) : noNL (applySub m s) = true :=
  subScanF_noNL hm s.length none s hs

theorem subScanF_shape {m : Matcher} (hsp : MNoSp m) (hhd : MHead m) :
    ∀ (fuel : ℕ) (pr : Option Char) (k : ℕ) (c : Char) (rest : List Char),
      isPySpace c = false →
      ∃ c2 r2, subScanF m fuel pr (List.replicate k ' ' ++ c :: rest)
          = List.replicate k ' ' ++ c2 :: r2 ∧ isPySpace c2 = false := by
  intro fuel
  induction fuel with
  | zero =>
    intro pr k c rest hc
    refine ⟨c, rest, ?_, hc⟩
    cases k with
    | zero => rfl
    | succ k => rfl
  | succ fuel ih =>
    intro pr k c rest hc
    cases k with
    | zero =>
      simp only [List.replicate, List.nil_append]
      rw [subScanF]
      cases hmr : m pr (c :: rest) with
      | none => exact ⟨c, subScanF m fuel (some c) rest, rfl, hc⟩
      | some nr =>
        obtain ⟨n, repl⟩ := nr
        dsimp only
        by_cases hn : n = 0
        · rw [if_pos hn]
          exact ⟨c, subScanF m fuel (some c) rest, rfl, hc⟩
        · rw [if_neg hn]
          obtain ⟨hne, hc2⟩ := hhd pr (c :: rest) n repl hmr
          cases repl with
          | nil => exact absurd rfl hne
          | cons c2 r2 =>
            exact ⟨c2, r2 ++ subScanF m fuel _ _, by rw [List.cons_append], hc2⟩
    | succ k =>
      rw [List.replicate_succ, List.cons_append, subScanF]
      have hm0 : m pr (' ' :: (List.replicate k ' ' ++ c :: rest)) = none := by
        cases hmr : m pr (' ' :: (List.replicate k ' ' ++ c :: rest)) with
        | none => rfl
        | some nr =>
          obtain ⟨n, repl⟩ := nr
          have := hsp pr ' ' _ n repl hmr
          simp [isPySpace] at this
      rw [hm0]
      dsimp only
      obtain ⟨c2, r2, hres, hc2⟩ := ih (some ' ') k c rest hc
      refine ⟨c2, r2, ?_, hc2⟩
      rw [hres, List.cons_append]

/-- Shape of a line: an indentation prefix of exactly k spaces followed
    by content starting with a non space character. -/
def Shaped (k : ℕ) (l : List Char) : Prop :=
  ∃ c r, l = List.replicate k ' ' ++ c :: r ∧ isPySpace c = false

theorem applySub_shaped {m : Matcher} (hsp : MNoSp m) (hhd : MHead m)
    {k : ℕ} {l : List Char} (hl : Shaped k l) : Shaped k (applySub m l) := by
  obtain ⟨c, r, hform, hc⟩ := hl
  subst hform
  obtain ⟨c2, r2, hres, hc2⟩ := subScanF_shape hsp hhd _ none k c r hc
  exact ⟨c2, r2, by rw [applySub, hres], hc2⟩

theorem leadSpaces_shaped {k : ℕ} {l : List Char} (hl : Shaped k l) :
    leadSpaces l = k := by
  obtain ⟨c, r, hform, hc⟩ := hl
  subst hform
  unfold leadSpaces
  induction k with
  | zero =>
    have : (c == ' ') = false := by
      cases hcc : c == ' '
      · rfl
      · rw [beq_iff_eq] at hcc
        subst hcc
        simp [isPySpace] at hc
    simp [this]
  | succ k ih =>
    rw [List.replicate_succ, List.cons_append, List.takeWhile_cons_of_pos (by rfl)]
    simp only [List.length_cons]
    rw [ih]

theorem noNL_shaped_parts {k : ℕ} {c : Char} {r : List Char}
    (h : noNL (List.replicate k ' ' ++ c :: r) = true) : noNL r = true := by
  rw [noNL_append, Bool.and_eq_true, noNL_cons, Bool.and_eq_true] at h
  exact h.2.2

/-
  Helper lemmas for the per matcher properties.
-/

theorem takeLower_space {c : Char} {t w : List Char} {k : ℕ} (hk : k ≠ 0)
    (hw : isPySpace (w.headD 'a') = false)
    (h : ((c :: t).take k).map Char.toLower = w) : isPySpace c = false := by
  cases k with
  | zero => exact absurd rfl hk
  | succ k =>
    rw [List.take_succ_cons, List.map_cons] at h
    cases hc : isPySpace c
    · rfl
    · rw [← h] at hw
      simp only [List.headD_cons] at hw
      rw [pySpace_toLower hc] at hw
      rw [hc] at hw
      cases hw

theorem ne_nl_of_not_space {c : Char} (h : isPySpace c = false) :
    (c != '\n') = true := by
  cases hc : c == '\n'
  · simp [bne, hc]
  · rw [beq_iff_eq] at hc
    subst hc
    simp [isPySpace] at h

theorem ofNat_interval_ne_nl : ∀ m < 91, 65 ≤ m → Char.ofNat m ≠ '\n' := by decide

theorem toUpper_ne_nl {c : Char} (h : c.isLower = true) : Char.toUpper c ≠ '\n' := by
  simp [Char.isLower] at h
  have hn : 97 ≤ c.toNat ∧ c.toNat ≤ 122 := ⟨h.1, h.2⟩
  unfold Char.toUpper
  rw [if_pos hn]
  exact ofNat_interval_ne_nl _ (by omega) (by omega)

/-
  The three scanner properties for each of the substitutions, in order.
  The anchored caret pattern and the quadruple quote pattern receive
  dedicated shape lemmas later since their replacement can start at a
  space or reset the indentation.
-/

theorem tryR1_noSp : MNoSp tryR1 := by
  intro pr c t n r h
  cases hc : isPySpace c
  · rfl
  · exfalso
    rcases pySpace_cases hc with h2 | h2 | h2 | h2 | h2 | h2 | h2 | h2 | h2 | h2 | h2 | h2 | h2 | h2 | h2 | h2 | h2 | h2 | h2 | h2 | h2 | h2 | h2 | h2 | h2 | h2 | h2 | h2 | h2 <;> subst h2 <;>
      simp [tryR1] at h

theorem tryR1_head : MHead tryR1 := by
  intro pr t n r h
  unfold tryR1 at h
  repeat' split at h
  all_goals (try cases h)
  all_goals decide

theorem tryR1_noNL : MNoNL tryR1 := by
  intro pr t n r h _
  unfold tryR1 at h
  repeat' split at h
  all_goals (try cases h)
  all_goals decide

theorem tryR2_noSp : MNoSp tryR2 := by
  intro pr c t n r h
  cases hc : isPySpace c
  · rfl
  · exfalso
    rcases pySpace_cases hc with h2 | h2 | h2 | h2 | h2 | h2 | h2 | h2 | h2 | h2 | h2 | h2 | h2 | h2 | h2 | h2 | h2 | h2 | h2 | h2 | h2 | h2 | h2 | h2 | h2 | h2 | h2 | h2 | h2 <;> subst h2 <;>
      simp [tryR2] at h

theorem tryR2_head : MHead tryR2 := by
  intro pr t n r h
  unfold tryR2 at h
  repeat' split at h
  all_goals (try cases h)
  all_goals decide

theorem tryR2_noNL : MNoNL tryR2 := by
  intro pr t n r h _
  unfold tryR2 at h
  repeat' split at h
  all_goals (try cases h)
  all_goals decide

theorem tryR3_noNL : MNoNL tryR3 := by
  intro pr t n r h _
  unfold tryR3 at h
  repeat' split at h
  all_goals (try cases h)
  all_goals decide

theorem tryR4_noSp : MNoSp tryR4 := by
  intro pr c t n r h
  cases hc : isPySpace c
  · rfl
  · exfalso
    rcases pySpace_cases hc with h2 | h2 | h2 | h2 | h2 | h2 | h2 | h2 | h2 | h2 | h2 | h2 | h2 | h2 | h2 | h2 | h2 | h2 | h2 | h2 | h2 | h2 | h2 | h2 | h2 | h2 | h2 | h2 | h2 <;> subst h2 <;>
      simp [tryR4] at h

theorem tryR4_head : MHead tryR4 := by
  intro pr t n r h
  unfold tryR4 at h
  repeat' split at h
  all_goals (try (injection h with hp; injection hp with h1 h2; subst h2))
  all_goals (try cases h)
  all_goals exact ⟨List.cons_ne_nil _ _, rfl⟩

theorem tryR4_noNL : MNoNL tryR4 := by
  intro pr t n r h hnl
  unfold tryR4 at h
  split at h
  · rename_i x0 c2 tail
    split at h
    · injection h with hp
      injection hp with h1 h2
      subst h2
      rw [noNL_cons, Bool.and_eq_true, noNL_cons, Bool.and_eq_true,
        noNL_cons, Bool.and_eq_true] at hnl
      rw [noNL_append, Bool.and_eq_true]
      refine ⟨by decide, ?_⟩
      simp [noNL_cons, noNL_nil, hnl.2.2.1]
    · cases h
  · cases h

theorem tryR5_noSp : MNoSp tryR5 := by
  intro pr c t n r h
  cases hc : isPySpace c
  · rfl
  · exfalso
    rcases pySpace_cases hc with h2 | h2 | h2 | h2 | h2 | h2 | h2 | h2 | h2 | h2 | h2 | h2 | h2 | h2 | h2 | h2 | h2 | h2 | h2 | h2 | h2 | h2 | h2 | h2 | h2 | h2 | h2 | h2 | h2 <;> subst h2 <;>
      simp [tryR5] at h

theorem tryR5_head : MHead tryR5 := by
  intro pr t n r h
  unfold tryR5 at h
  split at h
  · rename_i x0 c2 tail
    split at h
    · rename_i hcond
      rw [Bool.and_eq_true, Bool.and_eq_true, Bool.and_eq_true] at hcond
      injection h with hp
      injection hp with h1 h2
      subst h2
      exact ⟨by simp, by simpa using not_space_of_isLower hcond.1.1.1⟩
    · cases h
  · cases h

theorem tryR5_noNL : MNoNL tryR5 := by
  intro pr t n r h hnl
  unfold tryR5 at h
  split at h
  · rename_i x0 c2 tail
    split at h
    · injection h with hp
      injection hp with h1 h2
      subst h2
      rw [noNL_cons, Bool.and_eq_true] at hnl
      simp [noNL_cons, noNL_nil, hnl.1]
      decide
    · cases h
  · cases h

theorem tryR7_noSp : MNoSp tryR7 := by
  intro pr c t n r h
  cases hc : isPySpace c
  · rfl
  · exfalso
    rcases pySpace_cases hc with h2 | h2 | h2 | h2 | h2 | h2 | h2 | h2 | h2 | h2 | h2 | h2 | h2 | h2 | h2 | h2 | h2 | h2 | h2 | h2 | h2 | h2 | h2 | h2 | h2 | h2 | h2 | h2 | h2 <;> subst h2 <;>
      simp [tryR7] at h

theorem tryR7_head : MHead tryR7 := by
  intro pr t n r h
  unfold tryR7 at h
  repeat' split at h
  all_goals (try cases h)
  all_goals decide

theorem tryR7_noNL : MNoNL tryR7 := by
  intro pr t n r h _
  unfold tryR7 at h
  repeat' split at h
  all_goals (try cases h)
  all_goals decide

theorem tryR8_noSp : MNoSp tryR8 := by
  intro pr c t n r h
  cases hc : isPySpace c
  · rfl
  · exfalso
    unfold tryR8 at h
    split at h
    · rename_i hcond
      rw [Bool.and_eq_true, decide_eq_true_iff] at hcond
      have h2 := takeLower_space (by decide) (by decide) hcond.2
      rw [hc] at h2
      cases h2
    · cases h

theorem tryR8_head : MHead tryR8 := by
  intro pr t n r h
  unfold tryR8 at h
  split at h
  · rename_i hcond
    rw [Bool.and_eq_true, decide_eq_true_iff] at hcond
    obtain ⟨-, htake⟩ := hcond
    cases ht : t.take 6 with
    | nil =>
      rw [ht, List.map_nil] at htake
      exact absurd htake (by decide)
    | cons x rest2 =>
      rw [ht] at htake
      rw [List.map_cons] at htake
      have hx : Char.toLower x = 'i' := by
        have h3 := congrArg (fun l => List.headD l 'a') htake
        simpa using h3
      cases hd : t.drop 6 with
      | nil => rw [hd] at h; cases h
      | cons c2 t2 =>
        rw [hd] at h
        dsimp only at h
        by_cases ha : c2.isAlpha = true
        · rw [if_pos ha] at h
          injection h with hp
          injection hp with h1 h2
          subst h2
          rw [ht, List.cons_append]
          exact ⟨by simp, by simpa using not_space_of_toLower hx (by decide)⟩
        · rw [if_neg ha] at h
          cases h
  · cases h

theorem tryR8_noNL : MNoNL tryR8 := by
  intro pr t n r h hnl
  unfold tryR8 at h
  split at h
  · cases hd : t.drop 6 with
    | nil => rw [hd] at h; cases h
    | cons c2 t2 =>
      rw [hd] at h
      dsimp only at h
      by_cases hca : c2.isAlpha = true
      · rw [if_pos hca] at h
        injection h with hp
        injection hp with h1 h2
        subst h2
        rw [noNL_append]
        have ha : noNL (t.take 6) = true := noNL_take 6 hnl
        have hb : noNL (t.drop 6) = true := noNL_drop 6 hnl
        rw [hd, noNL_cons, Bool.and_eq_true] at hb
        simp [ha, noNL_cons, hb.1, noNL_nil]
      · rw [if_neg hca] at h
        cases h
  · cases h

theorem tryR9_noSp : MNoSp tryR9 := by
  intro pr c t n r h
  cases hc : isPySpace c
  · rfl
  · exfalso
    unfold tryR9 at h
    split at h
    · rename_i hcond
      rw [Bool.and_eq_true, decide_eq_true_iff] at hcond
      have h2 := takeLower_space (by decide) (by decide) hcond.2
      rw [hc] at h2
      cases h2
    · cases h

theorem tryR9_head : MHead tryR9 := by
  intro pr t n r h
  unfold tryR9 at h
  split at h
  · rename_i hcond
    rw [Bool.and_eq_true, decide_eq_true_iff] at hcond
    obtain ⟨-, htake⟩ := hcond
    cases ht : t.take 4 with
    | nil =>
      rw [ht, List.map_nil] at htake
      exact absurd htake (by decide)
    | cons x rest2 =>
      rw [ht] at htake
      rw [List.map_cons] at htake
      have hx : Char.toLower x = 'f' := by
        have h3 := congrArg (fun l => List.headD l 'a') htake
        simpa using h3
      cases hd : t.drop 4 with
      | nil => rw [hd] at h; cases h
      | cons c2 t2 =>
        rw [hd] at h
        dsimp only at h
        by_cases ha : c2.isAlpha = true
        · rw [if_pos ha] at h
          injection h with hp
          injection hp with h1 h2
          subst h2
          rw [ht, List.cons_append]
          exact ⟨by simp, by simpa using not_space_of_toLower hx (by decide)⟩
        · rw [if_neg ha] at h
          cases h
  · cases h

theorem tryR9_noNL : MNoNL tryR9 := by
  intro pr t n r h hnl
  unfold tryR9 at h
  split at h
  · cases hd : t.drop 4 with
    | nil => rw [hd] at h; cases h
    | cons c2 t2 =>
      rw [hd] at h
      dsimp only at h
      by_cases hca : c2.isAlpha = true
      · rw [if_pos hca] at h
        injection h with hp
        injection hp with h1 h2
        subst h2
        rw [noNL_append]
        have ha : noNL (t.take 4) = true := noNL_take 4 hnl
        have hb : noNL (t.drop 4) = true := noNL_drop 4 hnl
        rw [hd, noNL_cons, Bool.and_eq_true] at hb
        simp [ha, noNL_cons, hb.1, noNL_nil]
      · rw [if_neg hca] at h
        cases h
  · cases h

theorem tryR10_noSp : MNoSp tryR10 := by
  intro pr c t n r h
  cases hc : isPySpace c
  · rfl
  · exfalso
    unfold tryR10 at h
    rw [dropLit_space_none (by decide) (by decide) hc] at h
    simp at h

theorem tryR10_head : MHead tryR10 := by
  intro pr t n r h
  unfold tryR10 at h
  try dsimp only at h
  repeat' split at h
  all_goals (try cases h)
  all_goals decide

theorem tryR10_noNL : MNoNL tryR10 := by
  intro pr t n r h _
  unfold tryR10 at h
  try dsimp only at h
  repeat' split at h
  all_goals (try cases h)
  all_goals decide

theorem tryR11_noSp : MNoSp tryR11 := by
  intro pr c t n r h
  cases hc : isPySpace c
  · rfl
  · exfalso
    unfold tryR11 at h
    rw [dropLit_space_none (by decide) (by decide) hc] at h
    simp at h

theorem tryR11_head : MHead tryR11 := by
  intro pr t n r h
  unfold tryR11 at h
  try dsimp only at h
  repeat' split at h
  all_goals (try cases h)
  all_goals decide

theorem tryR11_noNL : MNoNL tryR11 := by
  intro pr t n r h _
  unfold tryR11 at h
  try dsimp only at h
  repeat' split at h
  all_goals (try cases h)
  all_goals decide

theorem tryR12_noSp : MNoSp tryR12 := by
  intro pr c t n r h
  cases hc : isPySpace c
  · rfl
  · exfalso
    unfold tryR12 at h
    rw [dropLit_space_none (by decide) (by decide) hc] at h
    simp at h

theorem tryR12_head : MHead tryR12 := by
  intro pr t n r h
  unfold tryR12 at h
  try dsimp only at h
  repeat' split at h
  all_goals (try cases h)
  all_goals decide

theorem tryR12_noNL : MNoNL tryR12 := by
  intro pr t n r h _
  unfold tryR12 at h
  try dsimp only at h
  repeat' split at h
  all_goals (try cases h)
  all_goals decide

theorem tryR13_noSp : MNoSp tryR13 := by
  intro pr c t n r h
  cases hc : isPySpace c
  · rfl
  · exfalso
    unfold tryR13 at h
    rw [dropLit_space_none (by decide) (by decide) hc] at h
    simp at h

theorem tryR13_head : MHead tryR13 := by
  intro pr t n r h
  unfold tryR13 at h
  try dsimp only at h
  repeat' split at h
  all_goals (try cases h)
  all_goals decide

theorem tryR13_noNL : MNoNL tryR13 := by
  intro pr t n r h _
  unfold tryR13 at h
  try dsimp only at h
  repeat' split at h
  all_goals (try cases h)
  all_goals decide

theorem tryR14_noSp : MNoSp tryR14 := by
  intro pr c t n r h
  cases hc : isPySpace c
  · rfl
  · exfalso
    unfold tryR14 at h
    rw [dropLit_space_none (by decide) (by decide) hc] at h
    simp at h

theorem tryR14_head : MHead tryR14 := by
  intro pr t n r h
  unfold tryR14 at h
  try dsimp only at h
  repeat' split at h
  all_goals (try cases h)
  all_goals decide

theorem tryR14_noNL : MNoNL tryR14 := by
  intro pr t n r h _
  unfold tryR14 at h
  try dsimp only at h
  repeat' split at h
  all_goals (try cases h)
  all_goals decide

theorem tryR15_noSp : MNoSp tryR15 := by
  intro pr c t n r h
  cases hc : isPySpace c
  · rfl
  · exfalso
    unfold tryR15 at h
    split at h
    · rw [dropLit_space_none (by decide) (by decide) hc] at h
      simp at h
    · cases h

theorem tryR15_head : MHead tryR15 := by
  intro pr t n r h
  unfold tryR15 at h
  try dsimp only at h
  repeat' split at h
  all_goals (try cases h)
  all_goals decide

theorem tryR15_noNL : MNoNL tryR15 := by
  intro pr t n r h _
  unfold tryR15 at h
  try dsimp only at h
  repeat' split at h
  all_goals (try cases h)
  all_goals decide

theorem tryR16_noSp : MNoSp tryR16 := by
  intro pr c t n r h
  cases hc : isPySpace c
  · rfl
  · exfalso
    rcases pySpace_cases hc with h2 | h2 | h2 | h2 | h2 | h2 | h2 | h2 | h2 | h2 | h2 | h2 | h2 | h2 | h2 | h2 | h2 | h2 | h2 | h2 | h2 | h2 | h2 | h2 | h2 | h2 | h2 | h2 | h2 <;> subst h2 <;>
      simp [tryR16] at h

theorem tryR16_head : MHead tryR16 := by
  intro pr t n r h
  unfold tryR16 at h
  try dsimp only at h
  repeat' split at h
  all_goals (try cases h)
  all_goals decide

theorem tryR16_noNL : MNoNL tryR16 := by
  intro pr t n r h _
  unfold tryR16 at h
  try dsimp only at h
  repeat' split at h
  all_goals (try cases h)
  all_goals decide

theorem tryR17_noSp : MNoSp tryR17 := by
  intro pr c t n r h
  cases hc : isPySpace c
  · rfl
  · exfalso
    rcases pySpace_cases hc with h2 | h2 | h2 | h2 | h2 | h2 | h2 | h2 | h2 | h2 | h2 | h2 | h2 | h2 | h2 | h2 | h2 | h2 | h2 | h2 | h2 | h2 | h2 | h2 | h2 | h2 | h2 | h2 | h2 <;> subst h2 <;>
      simp [tryR17] at h

theorem tryR17_head : MHead tryR17 := by
  intro pr t n r h
  unfold tryR17 at h
  try dsimp only at h
  repeat' split at h
  all_goals (try cases h)
  all_goals decide

theorem tryR17_noNL : MNoNL tryR17 := by
  intro pr t n r h _
  unfold tryR17 at h
  try dsimp only at h
  repeat' split at h
  all_goals (try cases h)
  all_goals decide

theorem tryR18_noSp : MNoSp tryR18 := by
  intro pr c t n r h
  cases hc : isPySpace c
  · rfl
  · exfalso
    unfold tryR18 at h
    split at h
    · rw [dropLit_space_none (by decide) (by decide) hc] at h
      simp at h
    · cases h

theorem tryR18_head : MHead tryR18 := by
  intro pr t n r h
  unfold tryR18 at h
  try dsimp only at h
  repeat' split at h
  all_goals (try cases h)
  all_goals decide

theorem tryR18_noNL : MNoNL tryR18 := by
  intro pr t n r h _
  unfold tryR18 at h
  try dsimp only at h
  repeat' split at h
  all_goals (try cases h)
  all_goals decide

theorem tryR19_noSp : MNoSp tryR19 := by
  intro pr c t n r h
  cases hc : isPySpace c
  · rfl
  · exfalso
    unfold tryR19 at h
    split at h
    · rw [dropLit_space_none (by decide) (by decide) hc] at h
      simp at h
    · cases h

theorem tryR19_head : MHead tryR19 := by
  intro pr t n r h
  unfold tryR19 at h
  try dsimp only at h
  repeat' split at h
  all_goals (try cases h)
  all_goals decide

theorem tryR19_noNL : MNoNL tryR19 := by
  intro pr t n r h _
  unfold tryR19 at h
  try dsimp only at h
  repeat' split at h
  all_goals (try cases h)
  all_goals decide

theorem tryR20_noSp : MNoSp tryR20 := by
  intro pr c t n r h
  cases hc : isPySpace c
  · rfl
  · exfalso
    unfold tryR20 at h
    split at h
    · rw [dropLit_space_none (by decide) (by decide) hc] at h
      simp at h
    · cases h

theorem tryR20_head : MHead tryR20 := by
  intro pr t n r h
  unfold tryR20 at h
  try dsimp only at h
  repeat' split at h
  all_goals (try cases h)
  all_goals decide

theorem tryR20_noNL : MNoNL tryR20 := by
  intro pr t n r h _
  unfold tryR20 at h
  try dsimp only at h
  repeat' split at h
  all_goals (try cases h)
  all_goals decide

theorem tryR21_noSp : MNoSp tryR21 := by
  intro pr c t n r h
  cases hc : isPySpace c
  · rfl
  · exfalso
    unfold tryR21 at h
    split at h
    · rw [dropLit_space_none (by decide) (by decide) hc] at h
      simp at h
    · cases h

theorem tryR21_head : MHead tryR21 := by
  intro pr t n r h
  unfold tryR21 at h
  try dsimp only at h
  repeat' split at h
  all_goals (try cases h)
  all_goals decide

theorem tryR21_noNL : MNoNL tryR21 := by
  intro pr t n r h _
  unfold tryR21 at h
  try dsimp only at h
  repeat' split at h
  all_goals (try cases h)
  all_goals decide

theorem tryR22_noSp : MNoSp tryR22 := by
  intro pr c t n r h
  cases hc : isPySpace c
  · rfl
  · exfalso
    unfold tryR22 at h
    split at h
    · try dsimp only at h
      split at h
      · cases h
      · rename_i x0 s6 heq
        split at heq
        · rename_i r2 heq2
          injection heq2 with he1 he2
          rw [he1] at hc
          exact absurd hc (by decide)
        · rw [dropLit_space_none (by decide) (by decide) hc] at heq
          cases heq
    · cases h
theorem tryR22_head : MHead tryR22 := by
  intro pr t n r h
  unfold tryR22 at h
  try dsimp only at h
  repeat' split at h
  all_goals (try cases h)
  all_goals decide

theorem tryR22_noNL : MNoNL tryR22 := by
  intro pr t n r h _
  unfold tryR22 at h
  try dsimp only at h
  repeat' split at h
  all_goals (try cases h)
  all_goals decide

theorem tryR23_noSp : MNoSp tryR23 := by
  intro pr c t n r h
  cases hc : isPySpace c
  · rfl
  · exfalso
    unfold tryR23 at h
    rw [dropLit_space_none (by decide) (by decide) hc] at h
    simp at h

theorem tryR23_head : MHead tryR23 := by
  intro pr t n r h
  unfold tryR23 at h
  try dsimp only at h
  repeat' split at h
  all_goals (try cases h)
  all_goals decide

theorem tryR23_noNL : MNoNL tryR23 := by
  intro pr t n r h _
  unfold tryR23 at h
  try dsimp only at h
  repeat' split at h
  all_goals (try cases h)
  all_goals decide

theorem tryWordCI_noSp (w repl : List Char) (hw0 : w ≠ [])
    (hw : isPySpace (w.headD 'a') = false) : MNoSp (tryWordCI w repl) := by
  intro pr c t n r h
  cases hc : isPySpace c
  · rfl
  · exfalso
    unfold tryWordCI at h
    split at h
    · rename_i hcond
      rw [Bool.and_eq_true, Bool.and_eq_true, decide_eq_true_iff] at hcond
      have hk : w.length ≠ 0 := by
        intro h0
        exact hw0 (List.length_eq_zero.mp h0)
      have h2 := takeLower_space hk hw hcond.1.2
      rw [hc] at h2
      cases h2
    · cases h

theorem tryWordCI_head (w repl : List Char) (h1 : repl ≠ [])
    (h2 : isPySpace (repl.headD 'a') = false) : MHead (tryWordCI w repl) := by
  intro pr t n r h
  unfold tryWordCI at h
  split at h
  · injection h with hp
    injection hp with hh1 hh2
    subst hh2
    exact ⟨h1, h2⟩
  · cases h

theorem tryWordCI_noNL (w repl : List Char) (h1 : noNL repl = true) :
    MNoNL (tryWordCI w repl) := by
  intro pr t n r h _
  unfold tryWordCI at h
  split at h
  · injection h with hp
    injection hp with hh1 hh2
    subst hh2
    exact h1
  · cases h

theorem tryR24_noSp : MNoSp tryR24 := tryWordCI_noSp _ _ (by decide) (by decide)

theorem tryR24_head : MHead tryR24 := tryWordCI_head _ _ (by decide) (by decide)

theorem tryR24_noNL : MNoNL tryR24 := tryWordCI_noNL _ _ (by decide)

theorem tryR25_noSp : MNoSp tryR25 := tryWordCI_noSp _ _ (by decide) (by decide)

theorem tryR25_head : MHead tryR25 := tryWordCI_head _ _ (by decide) (by decide)

theorem tryR25_noNL : MNoNL tryR25 := tryWordCI_noNL _ _ (by decide)

theorem tryR26_noSp : MNoSp tryR26 := tryWordCI_noSp _ _ (by decide) (by decide)

theorem tryR26_head : MHead tryR26 := tryWordCI_head _ _ (by decide) (by decide)

theorem tryR26_noNL : MNoNL tryR26 := tryWordCI_noNL _ _ (by decide)

theorem tryR27_noSp : MNoSp tryR27 := tryWordCI_noSp _ _ (by decide) (by decide)

theorem tryR27_head : MHead tryR27 := tryWordCI_head _ _ (by decide) (by decide)

theorem tryR27_noNL : MNoNL tryR27 := tryWordCI_noNL _ _ (by decide)

theorem tryR28_noSp : MNoSp tryR28 := tryWordCI_noSp _ _ (by decide) (by decide)

theorem tryR28_head : MHead tryR28 := tryWordCI_head _ _ (by decide) (by decide)

theorem tryR28_noNL : MNoNL tryR28 := tryWordCI_noNL _ _ (by decide)

theorem tryR29_noSp : MNoSp tryR29 := by
  intro pr c t n r h
  cases hc : isPySpace c
  · rfl
  · exfalso
    unfold tryR29 at h
    split at h
    · rw [dropLit_space_none (by decide) (by decide) hc] at h
      simp at h
    · cases h

theorem tryR29_head : MHead tryR29 := by
  intro pr t n r h
  unfold tryR29 at h
  repeat' split at h
  all_goals (try cases h)
  all_goals exact ⟨fun hemp => List.noConfusion hemp, rfl⟩

theorem tryR29_noNL : MNoNL tryR29 := by
  intro pr t n r h _
  unfold tryR29 at h
  repeat' split at h
  all_goals (try cases h)
  all_goals
    (rename_i hcond
     rw [noNL_append, Bool.and_eq_true]
     refine ⟨by decide, ?_⟩
     have h2 := toUpper_ne_nl hcond
     simp [noNL_cons, noNL_nil, h2])

theorem tryR30_noSp : MNoSp tryR30 := by
  intro pr c t n r h
  cases hc : isPySpace c
  · rfl
  · exfalso
    unfold tryR30 at h
    split at h
    · rename_i hcond
      rw [Bool.and_eq_true, Bool.and_eq_true] at hcond
      have hp := hcond.1.2
      rw [List.isPrefixOf_iff_prefix] at hp
      obtain ⟨t2, ht⟩ := hp
      rw [show cl "Portalscreenshot" = 'P' :: cl "ortalscreenshot" from rfl,
        List.cons_append] at ht
      injection ht with he1 he2
      rw [← he1] at hc
      exact absurd hc (by decide)
    · cases h

theorem tryR30_head : MHead tryR30 := by
  intro pr t n r h
  unfold tryR30 at h
  repeat' split at h
  all_goals (try cases h)
  all_goals decide

theorem tryR30_noNL : MNoNL tryR30 := by
  intro pr t n r h _
  unfold tryR30 at h
  repeat' split at h
  all_goals (try cases h)
  all_goals decide

theorem tryR31_noSp : MNoSp tryR31 := by
  intro pr c t n r h
  cases hc : isPySpace c
  · rfl
  · exfalso
    rcases pySpace_cases hc with h2 | h2 | h2 | h2 | h2 | h2 | h2 | h2 | h2 | h2 | h2 | h2 | h2 | h2 | h2 | h2 | h2 | h2 | h2 | h2 | h2 | h2 | h2 | h2 | h2 | h2 | h2 | h2 | h2 <;> subst h2 <;>
      simp [tryR31] at h

theorem tryR31_head : MHead tryR31 := by
  intro pr t n r h
  cases t with
  | nil => cases h
  | cons c rest =>
    unfold tryR31 at h
    dsimp only at h
    by_cases ha : c.isAlpha = true
    · rw [if_pos ha] at h
      cases hs : screenshotSplit rest ((rest.takeWhile Char.isAlpha).length) with
      | none => rw [hs] at h; cases h
      | some k =>
        rw [hs] at h
        injection h with hp
        injection hp with h1 h2
        subst h2
        rw [List.cons_append]
        exact ⟨by simp, by simpa using not_space_of_isAlpha ha⟩
    · rw [if_neg ha] at h
      cases h

theorem tryR31_noNL : MNoNL tryR31 := by
  intro pr t n r h hnl
  cases t with
  | nil => cases h
  | cons c rest =>
    unfold tryR31 at h
    dsimp only at h
    by_cases ha : c.isAlpha = true
    · rw [if_pos ha] at h
      cases hs : screenshotSplit rest ((rest.takeWhile Char.isAlpha).length) with
      | none => rw [hs] at h; cases h
      | some k =>
        rw [hs] at h
        injection h with hp
        injection hp with h1 h2
        subst h2
        rw [noNL_cons, Bool.and_eq_true] at hnl
        rw [List.cons_append, noNL_cons, Bool.and_eq_true]
        refine ⟨hnl.1, ?_⟩
        rw [noNL_append, Bool.and_eq_true]
        exact ⟨noNL_take _ hnl.2, by decide⟩
    · rw [if_neg ha] at h
      cases h

theorem tryR32_noSp : MNoSp tryR32 := by
  intro pr c t n r h
  cases hc : isPySpace c
  · rfl
  · exfalso
    unfold tryR32 at h
    rw [dropLit_space_none (by decide) (by decide) hc] at h
    simp at h

theorem tryR32_head : MHead tryR32 := by
  intro pr t n r h
  unfold tryR32 at h
  try dsimp only at h
  repeat' split at h
  all_goals (try cases h)
  all_goals decide

theorem tryR32_noNL : MNoNL tryR32 := by
  intro pr t n r h _
  unfold tryR32 at h
  try dsimp only at h
  repeat' split at h
  all_goals (try cases h)
  all_goals decide

theorem tryR33_noSp : MNoSp tryR33 := by
  intro pr c t n r h
  cases hc : isPySpace c
  · rfl
  · exfalso
    unfold tryR33 at h
    rw [dropLit_space_none (by decide) (by decide) hc] at h
    simp at h

theorem tryR33_head : MHead tryR33 := by
  intro pr t n r h
  unfold tryR33 at h
  try dsimp only at h
  repeat' split at h
  all_goals (try cases h)
  all_goals decide

theorem tryR33_noNL : MNoNL tryR33 := by
  intro pr t n r h _
  unfold tryR33 at h
  try dsimp only at h
  repeat' split at h
  all_goals (try cases h)
  all_goals decide

theorem tryR34_noSp : MNoSp tryR34 := by
  intro pr c t n r h
  cases hc : isPySpace c
  · rfl
  · exfalso
    unfold tryR34 at h
    rw [dropLit_space_none (by decide) (by decide) hc] at h
    simp at h

theorem tryR34_head : MHead tryR34 := by
  intro pr t n r h
  unfold tryR34 at h
  try dsimp only at h
  repeat' split at h
  all_goals (try cases h)
  all_goals decide

theorem tryR34_noNL : MNoNL tryR34 := by
  intro pr t n r h _
  unfold tryR34 at h
  try dsimp only at h
  repeat' split at h
  all_goals (try cases h)
  all_goals decide

theorem tryR35_noSp : MNoSp tryR35 := by
  intro pr c t n r h
  cases hc : isPySpace c
  · rfl
  · exfalso
    unfold tryR35 at h
    rw [dropLit_space_none (by decide) (by decide) hc] at h
    simp at h

theorem tryR35_head : MHead tryR35 := by
  intro pr t n r h
  unfold tryR35 at h
  try dsimp only at h
  repeat' split at h
  all_goals (try cases h)
  all_goals exact ⟨fun hemp => List.noConfusion hemp, rfl⟩

theorem tryR35_noNL : MNoNL tryR35 := by
  intro pr t n r h hnl
  unfold tryR35 at h
  cases h1 : dropLit (cl "self.") t with
  | none => rw [h1] at h; cases h
  | some s1 =>
    rw [h1] at h
    dsimp only at h
    by_cases hw1 : (s1.takeWhile isWordCh).isEmpty = true
    · rw [if_pos hw1] at h; cases h
    · rw [if_neg hw1] at h
      cases h2 : dropSp1 (s1.drop (s1.takeWhile isWordCh).length) with
      | none => rw [h2] at h; cases h
      | some s2 =>
        rw [h2] at h
        dsimp only at h
        cases h3 : dropLit (cl "self.") s2 with
        | none => rw [h3] at h; cases h
        | some s3 =>
          rw [h3] at h
          dsimp only at h
          by_cases hw2 : (s3.takeWhile isWordCh).isEmpty = true
          · rw [if_pos hw2] at h; cases h
          · rw [if_neg hw2] at h
            split at h
            · rename_i s5 heq5
              injection h with hp
              injection hp with hh1 hh2
              subst hh2
              have hnl1 : noNL s1 = true := by
                rw [dropLit_eq_some] at h1
                rw [h1, noNL_append, Bool.and_eq_true] at hnl
                exact hnl.2
              have hnl3 : noNL s3 = true := by
                obtain ⟨cx, rx, hx1, hx2, hx3⟩ := dropSp1_eq_some h2
                have hdrop : noNL (s1.drop (s1.takeWhile isWordCh).length) = true :=
                  noNL_drop _ hnl1
                rw [hx1, noNL_cons, Bool.and_eq_true] at hdrop
                have hs2 : noNL s2 = true := by
                  rw [hx3]
                  exact noNL_dropWhile _ hdrop.2
                rw [dropLit_eq_some] at h3
                rw [h3, noNL_append, Bool.and_eq_true] at hs2
                exact hs2.2
              have d1 : noNL (cl "self.") = true := by decide
              have d2 : noNL (cl " = ") = true := by decide
              have d3 : noNL ['('] = true := by decide
              simp [noNL_append, d1, d2, d3, noNL_takeWhile _ hnl1,
                noNL_takeWhile _ hnl3]
            · cases h

theorem tryR36_noSp : MNoSp tryR36 := by
  intro pr c t n r h
  cases hc : isPySpace c
  · rfl
  · exfalso
    unfold tryR36 at h
    rw [dropLit_space_none (by decide) (by decide) hc] at h
    simp at h

theorem tryR36_head : MHead tryR36 := by
  intro pr t n r h
  unfold tryR36 at h
  try dsimp only at h
  repeat' split at h
  all_goals (try cases h)
  all_goals decide

theorem tryR36_noNL : MNoNL tryR36 := by
  intro pr t n r h _
  unfold tryR36 at h
  try dsimp only at h
  repeat' split at h
  all_goals (try cases h)
  all_goals decide

theorem tryR37_noSp : MNoSp tryR37 := by
  intro pr c t n r h
  cases hc : isPySpace c
  · rfl
  · exfalso
    unfold tryR37 at h
    split at h
    · rw [dropLit_space_none (by decide) (by decide) hc] at h
      simp at h
    · cases h

theorem tryR37_head : MHead tryR37 := by
  intro pr t n r h
  unfold tryR37 at h
  try dsimp only at h
  repeat' split at h
  all_goals (try cases h)
  all_goals decide

theorem tryR37_noNL : MNoNL tryR37 := by
  intro pr t n r h _
  unfold tryR37 at h
  try dsimp only at h
  repeat' split at h
  all_goals (try cases h)
  all_goals decide

theorem tryR38_noSp : MNoSp tryR38 := by
  intro pr c t n r h
  cases hc : isPySpace c
  · rfl
  · exfalso
    unfold tryR38 at h
    split at h
    · rw [dropLit_space_none (by decide) (by decide) hc] at h
      simp at h
    · cases h

theorem tryR38_head : MHead tryR38 := by
  intro pr t n r h
  unfold tryR38 at h
  try dsimp only at h
  repeat' split at h
  all_goals (try cases h)
  all_goals exact ⟨fun hemp => List.noConfusion hemp, rfl⟩

theorem tryR38_noNL : MNoNL tryR38 := by
  intro pr t n r h hnl
  unfold tryR38 at h
  split at h
  · cases h1 : dropLit (cl "self") t with
    | none => rw [h1] at h; cases h
    | some s1 =>
      rw [h1] at h
      cases hs1 : s1 with
      | nil => rw [hs1] at h; cases h
      | cons c2 t2 =>
        rw [hs1] at h
        dsimp only at h
        split at h
        · rename_i hcond
          injection h with hp
          injection hp with hh1 hh2
          subst hh2
          rw [noNL_append, Bool.and_eq_true]
          refine ⟨by decide, ?_⟩
          have h4 : (c2 != '\n') = true := by
            rw [Bool.or_eq_true] at hcond
            rcases hcond with hl | he
            · exact ne_nl_of_not_space (not_space_of_isLower hl)
            · rw [beq_iff_eq] at he
              subst he
              decide
          simp [noNL_cons, noNL_nil, h4]
        · cases h
  · cases h

/-
  Dedicated lemmas for the anchored pattern and for the quadruple quote
  pattern.
-/

theorem tryR6Quotes_some {g1 rest : List Char} {n : ℕ} {r : List Char}
    (h : tryR6Quotes g1 rest = some (n, r)) : r = g1 ++ cl "\"\"\"" := by
  unfold tryR6Quotes at h
  dsimp only at h
  split at h
  · injection h with hp
    injection hp with h1 h2
    exact h2.symm
  · cases h

theorem tryR6Quotes_head {g1 rest : List Char} {n : ℕ} {r : List Char}
    (h : tryR6Quotes g1 rest = some (n, r)) :
    4 ≤ (rest.takeWhile (fun d => d == '"')).length := by
  unfold tryR6Quotes at h
  dsimp only at h
  split at h
  · assumption
  · cases h

theorem takeWhile_quotes_head {t : List Char}
    (h : 4 ≤ (t.takeWhile (fun d => d == '"')).length) :
    ∃ q, t = '"' :: q := by
  cases t with
  | nil => simp [List.takeWhile] at h
  | cons c q =>
    by_cases hc : (c == '"') = true
    · rw [beq_iff_eq] at hc
      subst hc
      exact ⟨q, rfl⟩
    · rw [List.takeWhile_cons_of_neg (by simpa using hc)] at h
      simp at h

theorem tryR6_noNL : MNoNL tryR6 := by
  intro pr t n r h hnl
  unfold tryR6 at h
  have hq3 : noNL (cl "\"\"\"") = true := by decide
  cases pr with
  | none =>
    dsimp only at h
    cases hq : tryR6Quotes [] t with
    | some nr =>
      rw [hq] at h
      injection h with hp
      have h2 := tryR6Quotes_some (hq.trans (congrArg some hp))
      rw [h2]
      simpa using hq3
    | none =>
      rw [hq] at h
      cases t with
      | nil => cases h
      | cons c rest =>
        dsimp only at h
        split at h
        · cases h
        · have h2 := tryR6Quotes_some h
          rw [h2]
          rw [noNL_cons, Bool.and_eq_true] at hnl
          rw [noNL_append]
          simp [noNL_cons, noNL_nil, hnl.1, hq3]
  | some c0 =>
    dsimp only at h
    cases t with
    | nil => cases h
    | cons c rest =>
      dsimp only at h
      split at h
      · cases h
      · have h2 := tryR6Quotes_some h
        rw [h2]
        rw [noNL_cons, Bool.and_eq_true] at hnl
        rw [noNL_append]
        simp [noNL_cons, noNL_nil, hnl.1, hq3]

theorem tryR6_fire_head {pr : Option Char} {c : Char} {t : List Char}
    {n : ℕ} {r : List Char} (h : tryR6 pr (c :: t) = some (n, r))
    (hc : isPySpace c = false) : ∃ c2 r2, r = c2 :: r2 ∧ isPySpace c2 = false := by
  unfold tryR6 at h
  cases pr with
  | none =>
    dsimp only at h
    cases hq : tryR6Quotes [] (c :: t) with
    | some nr =>
      rw [hq] at h
      injection h with hp
      have h2 := tryR6Quotes_some (hq.trans (congrArg some hp))
      simp only [List.nil_append] at h2
      exact ⟨'"', cl "\"\"", by rw [h2]; rfl, by decide⟩
    | none =>
      rw [hq] at h
      dsimp only at h
      split at h
      · cases h
      · have h2 := tryR6Quotes_some h
        exact ⟨c, cl "\"\"\"", by rw [h2]; rfl, hc⟩
  | some c0 =>
    dsimp only at h
    split at h
    · cases h
    · have h2 := tryR6Quotes_some h
      exact ⟨c, cl "\"\"\"", by rw [h2]; rfl, hc⟩

theorem tryR6_fire_space {pr : Option Char} {t : List Char} {n : ℕ}
    {r : List Char} (h : tryR6 pr (' ' :: t) = some (n, r)) :
    (∃ q, t = '"' :: q) ∧ r = ' ' :: cl "\"\"\"" := by
  unfold tryR6 at h
  cases pr with
  | none =>
    dsimp only at h
    cases hq : tryR6Quotes [] (' ' :: t) with
    | some nr =>
      exfalso
      have h2 := tryR6Quotes_head hq
      rw [List.takeWhile_cons_of_neg (by decide)] at h2
      simp at h2
    | none =>
      rw [hq] at h
      dsimp only at h
      split at h
      · cases h
      · have h2 := tryR6Quotes_some h
        exact ⟨takeWhile_quotes_head (tryR6Quotes_head h), h2⟩
  | some c0 =>
    dsimp only at h
    split at h
    · cases h
    · have h2 := tryR6Quotes_some h
      exact ⟨takeWhile_quotes_head (tryR6Quotes_head h), h2⟩

theorem subScanF_R6_shape :
    ∀ (fuel : ℕ) (pr : Option Char) (k : ℕ) (c : Char) (rest : List Char),
      isPySpace c = false →
      ∃ c2 r2, subScanF tryR6 fuel pr (List.replicate k ' ' ++ c :: rest)
          = List.replicate k ' ' ++ c2 :: r2 ∧ isPySpace c2 = false := by
  intro fuel
  induction fuel with
  | zero =>
    intro pr k c rest hc
    refine ⟨c, rest, ?_, hc⟩
    cases k with
    | zero => rfl
    | succ k => rfl
  | succ fuel ih =>
    intro pr k c rest hc
    cases k with
    | zero =>
      simp only [List.replicate, List.nil_append]
      rw [subScanF]
      cases hmr : tryR6 pr (c :: rest) with
      | none => exact ⟨c, subScanF tryR6 fuel (some c) rest, rfl, hc⟩
      | some nr =>
        obtain ⟨n, repl⟩ := nr
        dsimp only
        by_cases hn : n = 0
        · rw [if_pos hn]
          exact ⟨c, subScanF tryR6 fuel (some c) rest, rfl, hc⟩
        · rw [if_neg hn]
          obtain ⟨c2, r2, hrepl, hc2⟩ := tryR6_fire_head hmr hc
          subst hrepl
          exact ⟨c2, r2 ++ subScanF tryR6 fuel _ _, by rw [List.cons_append], hc2⟩
    | succ k =>
      rw [List.replicate_succ, List.cons_append, subScanF]
      cases hmr : tryR6 pr (' ' :: (List.replicate k ' ' ++ c :: rest)) with
      | none =>
        dsimp only
        obtain ⟨c2, r2, hres, hc2⟩ := ih (some ' ') k c rest hc
        refine ⟨c2, r2, ?_, hc2⟩
        rw [hres, List.cons_append]
      | some nr =>
        obtain ⟨n, repl⟩ := nr
        dsimp only
        by_cases hn : n = 0
        · rw [if_pos hn]
          obtain ⟨c2, r2, hres, hc2⟩ := ih (some ' ') k c rest hc
          refine ⟨c2, r2, ?_, hc2⟩
          rw [hres, List.cons_append]
        · rw [if_neg hn]
          obtain ⟨⟨q, hq⟩, hrepl⟩ := tryR6_fire_space hmr
          cases k with
          | succ k2 =>
            exfalso
            rw [List.replicate_succ, List.cons_append] at hq
            injection hq with hq1 hq2
            cases hq1
          | zero =>
            simp only [List.replicate, List.nil_append] at hq
            subst hrepl
            refine ⟨'"', cl "\"\"" ++ subScanF tryR6 fuel
                ((' ' :: (List.replicate 0 ' ' ++ c :: rest)).take n).getLast?
                ((' ' :: (List.replicate 0 ' ' ++ c :: rest)).drop n), ?_, by decide⟩
            rfl

theorem tryR3_prev_some (c : Char) (t : List Char) : tryR3 (some c) t = none := rfl

theorem subScanF_R3_tail : ∀ (fuel : ℕ) (c : Char) (t : List Char),
    subScanF tryR3 fuel (some c) t = t := by
  intro fuel
  induction fuel with
  | zero => intro c t; cases t <;> rfl
  | succ fuel ih =>
    intro c t
    cases t with
    | nil => rfl
    | cons c2 rest =>
      rw [subScanF, tryR3_prev_some]
      dsimp only
      rw [ih]

theorem tryR3_fire {t : List Char} {n : ℕ} {r : List Char}
    (h : tryR3 none t = some (n, r)) : r = ['"'] := by
  unfold tryR3 at h
  repeat' split at h
  all_goals (try cases h)
  all_goals rfl

theorem subScanF_R3_cases (fuel : ℕ) (x : Char) (xs : List Char) :
    subScanF tryR3 (fuel + 1) none (x :: xs) = x :: xs ∨
    ∃ tail, subScanF tryR3 (fuel + 1) none (x :: xs) = '"' :: tail := by
  rw [subScanF]
  cases hm : tryR3 none (x :: xs) with
  | none =>
    dsimp only
    left
    rw [subScanF_R3_tail]
  | some nr =>
    obtain ⟨n, repl⟩ := nr
    dsimp only
    by_cases hn : n = 0
    · rw [if_pos hn]
      left
      rw [subScanF_R3_tail]
    · rw [if_neg hn]
      right
      rw [tryR3_fire hm]
      exact ⟨_, rfl⟩

theorem applySub_R3_shaped {k : ℕ} {l : List Char} (hl : Shaped k l) :
    Shaped k (applySub tryR3 l) ∨ Shaped 0 (applySub tryR3 l) := by
  obtain ⟨c, r, hform, hc⟩ := hl
  cases hL : l with
  | nil =>
    rw [hL] at hform
    exact absurd hform.symm (by simp)
  | cons x xs =>
    rw [hL] at hform
    unfold applySub
    simp only [List.length_cons]
    rcases subScanF_R3_cases xs.length x xs with hcase | ⟨tail, hcase⟩
    · left
      rw [hcase]
      exact ⟨c, r, hform, hc⟩
    · right
      rw [hcase]
      exact ⟨'"', tail, rfl, by decide⟩

theorem applySub_R6_shaped {k : ℕ} {l : List Char} (hl : Shaped k l) :
    Shaped k (applySub tryR6 l) := by
  obtain ⟨c, r, hform, hc⟩ := hl
  subst hform
  obtain ⟨c2, r2, hres, hc2⟩ := subScanF_R6_shape _ none k c r hc
  exact ⟨c2, r2, by rw [applySub, hres], hc2⟩

/-
  Chaining the scanner properties over the whole per line fixer.
-/

theorem shapedOr_step {m : Matcher} (hsp : MNoSp m) (hhd : MHead m)
    {k : ℕ} {l : List Char} (h : Shaped k l ∨ Shaped 0 l) :
    Shaped k (applySub m l) ∨ Shaped 0 (applySub m l) := by
  rcases h with h | h
  · exact Or.inl (applySub_shaped hsp hhd h)
  · exact Or.inr (applySub_shaped hsp hhd h)

theorem shapedOr_R3 {k : ℕ} {l : List Char} (h : Shaped k l ∨ Shaped 0 l) :
    Shaped k (applySub tryR3 l) ∨ Shaped 0 (applySub tryR3 l) := by
  rcases h with h | h
  · exact applySub_R3_shaped h
  · rcases applySub_R3_shaped h with h2 | h2 <;> exact Or.inr h2

theorem shapedOr_R6 {k : ℕ} {l : List Char} (h : Shaped k l ∨ Shaped 0 l) :
    Shaped k (applySub tryR6 l) ∨ Shaped 0 (applySub tryR6 l) := by
  rcases h with h | h
  · exact Or.inl (applySub_R6_shaped h)
  · exact Or.inr (applySub_R6_shaped h)

theorem fixLineA_shapedOr {k : ℕ} {l0 : List Char}
    (h : Shaped k l0 ∨ Shaped 0 l0) :
    Shaped k (fixLineA l0) ∨ Shaped 0 (fixLineA l0) :=
  shapedOr_step tryR9_noSp tryR9_head
    (shapedOr_step tryR8_noSp tryR8_head
      (shapedOr_step tryR7_noSp tryR7_head
        (shapedOr_R6
          (shapedOr_step tryR5_noSp tryR5_head
            (shapedOr_step tryR4_noSp tryR4_head
              (shapedOr_R3
                (shapedOr_step tryR2_noSp tryR2_head
                  (shapedOr_step tryR1_noSp tryR1_head h))))))))

theorem fixLineB_shapedOr {k : ℕ} {l : List Char}
    (h : Shaped k l ∨ Shaped 0 l) :
    Shaped k (fixLineB l) ∨ Shaped 0 (fixLineB l) :=
  shapedOr_step tryR15_noSp tryR15_head
    (shapedOr_step tryR14_noSp tryR14_head
      (shapedOr_step tryR13_noSp tryR13_head
        (shapedOr_step tryR12_noSp tryR12_head
          (shapedOr_step tryR11_noSp tryR11_head
            (shapedOr_step tryR10_noSp tryR10_head h)))))

set_option maxHeartbeats 1600000 in
theorem fixLineC_shapedOr {k : ℕ} {l : List Char}
    (h : Shaped k l ∨ Shaped 0 l) :
    Shaped k (fixLineC l) ∨ Shaped 0 (fixLineC l) :=
  shapedOr_step tryR38_noSp tryR38_head
    (shapedOr_step tryR37_noSp tryR37_head
      (shapedOr_step tryR36_noSp tryR36_head
        (shapedOr_step tryR35_noSp tryR35_head
          (shapedOr_step tryR34_noSp tryR34_head
            (shapedOr_step tryR33_noSp tryR33_head
              (shapedOr_step tryR32_noSp tryR32_head
                (shapedOr_step tryR31_noSp tryR31_head
                  (shapedOr_step tryR30_noSp tryR30_head
                    (shapedOr_step tryR29_noSp tryR29_head
                      (shapedOr_step tryR28_noSp tryR28_head
                        (shapedOr_step tryR27_noSp tryR27_head
                          (shapedOr_step tryR26_noSp tryR26_head
                            (shapedOr_step tryR25_noSp tryR25_head
                              (shapedOr_step tryR24_noSp tryR24_head
                                (shapedOr_step tryR23_noSp tryR23_head
                                  (shapedOr_step tryR22_noSp tryR22_head
                                    (shapedOr_step tryR21_noSp tryR21_head
                                      (shapedOr_step tryR20_noSp tryR20_head
                                        (shapedOr_step tryR19_noSp tryR19_head
                                          (shapedOr_step tryR18_noSp tryR18_head
                                            (shapedOr_step tryR17_noSp tryR17_head
                                              (shapedOr_step tryR16_noSp tryR16_head
                                                h))))))))))))))))))))))

theorem fixLineCore_eq (l0 : List Char) :
    fixLineCore l0 = fixLineC (if hasSub (cl "\"\"\"") (fixLineA l0) = true
      then fixLineA l0 else fixLineB (fixLineA l0)) := rfl

theorem fixLineCore_shapedOr {k : ℕ} {l0 : List Char}
    (h : Shaped k l0 ∨ Shaped 0 l0) :
    Shaped k (fixLineCore l0) ∨ Shaped 0 (fixLineCore l0) := by
  rw [fixLineCore_eq]
  by_cases hcond : hasSub (cl "\"\"\"") (fixLineA l0) = true
  · rw [if_pos hcond]
    exact fixLineC_shapedOr (fixLineA_shapedOr h)
  · rw [if_neg hcond]
    exact fixLineC_shapedOr (fixLineB_shapedOr (fixLineA_shapedOr h))

theorem fixLineA_noNL {l0 : List Char} (h : noNL l0 = true) :
    noNL (fixLineA l0) = true :=
  applySub_noNL tryR9_noNL
    (applySub_noNL tryR8_noNL
      (applySub_noNL tryR7_noNL
        (applySub_noNL tryR6_noNL
          (applySub_noNL tryR5_noNL
            (applySub_noNL tryR4_noNL
              (applySub_noNL tryR3_noNL
                (applySub_noNL tryR2_noNL
                  (applySub_noNL tryR1_noNL h))))))))

theorem fixLineB_noNL {l : List Char} (h : noNL l = true) :
    noNL (fixLineB l) = true :=
  applySub_noNL tryR15_noNL
    (applySub_noNL tryR14_noNL
      (applySub_noNL tryR13_noNL
        (applySub_noNL tryR12_noNL
          (applySub_noNL tryR11_noNL
            (applySub_noNL tryR10_noNL h)))))

set_option maxHeartbeats 1600000 in
theorem fixLineC_noNL {l : List Char} (h : noNL l = true) :
    noNL (fixLineC l) = true :=
  applySub_noNL tryR38_noNL
    (applySub_noNL tryR37_noNL
      (applySub_noNL tryR36_noNL
        (applySub_noNL tryR35_noNL
          (applySub_noNL tryR34_noNL
            (applySub_noNL tryR33_noNL
              (applySub_noNL tryR32_noNL
                (applySub_noNL tryR31_noNL
                  (applySub_noNL tryR30_noNL
                    (applySub_noNL tryR29_noNL
                      (applySub_noNL tryR28_noNL
                        (applySub_noNL tryR27_noNL
                          (applySub_noNL tryR26_noNL
                            (applySub_noNL tryR25_noNL
                              (applySub_noNL tryR24_noNL
                                (applySub_noNL tryR23_noNL
                                  (applySub_noNL tryR22_noNL
                                    (applySub_noNL tryR21_noNL
                                      (applySub_noNL tryR20_noNL
                                        (applySub_noNL tryR19_noNL
                                          (applySub_noNL tryR18_noNL
                                            (applySub_noNL tryR17_noNL
                                              (applySub_noNL tryR16_noNL
                                                h))))))))))))))))))))))

theorem fixLineCore_noNL {l0 : List Char} (h : noNL l0 = true) :
    noNL (fixLineCore l0) = true := by
  rw [fixLineCore_eq]
  by_cases hcond : hasSub (cl "\"\"\"") (fixLineA l0) = true
  · rw [if_pos hcond]
    exact fixLineC_noNL (fixLineA_noNL h)
  · rw [if_neg hcond]
    exact fixLineC_noNL (fixLineB_noNL (fixLineA_noNL h))

/-
  Lemmas about strip on shaped lines, feeding the wrap step and the
  docstring normalization.
-/

theorem dropWhile_append_single {p : Char → Bool} {c : Char}
    (hc : p c = false) :
    ∀ a : List Char, ∃ z, (List.dropWhile p (a ++ [c])).reverse = c :: z := by
  intro a
  induction a with
  | nil =>
    refine ⟨[], ?_⟩
    rw [List.nil_append, List.dropWhile_cons_of_neg (by simp [hc])]
    rfl
  | cons x a2 ih =>
    by_cases hx : p x = true
    · rw [List.cons_append, List.dropWhile_cons_of_pos hx]
      exact ih
    · rw [List.cons_append,
        List.dropWhile_cons_of_neg (by simpa using hx)]
      refine ⟨a2.reverse ++ [x], ?_⟩
      rw [List.reverse_cons, List.reverse_append]
      rfl

theorem pyRstrip_head {c : Char} {r : List Char} (hc : isPySpace c = false) :
    ∃ z, pyRstrip (c :: r) = c :: z := by
  unfold pyRstrip
  rw [List.reverse_cons]
  exact dropWhile_append_single hc r.reverse

theorem pyLstrip_shaped {k : ℕ} {c : Char} {r : List Char}
    (hc : isPySpace c = false) :
    pyLstrip (List.replicate k ' ' ++ c :: r) = c :: r := by
  unfold pyLstrip
  induction k with
  | zero =>
    rw [List.replicate, List.nil_append, List.dropWhile_cons_of_neg (by simp [hc])]
  | succ k ih =>
    rw [List.replicate_succ, List.cons_append,
      List.dropWhile_cons_of_pos (by decide)]
    exact ih

theorem pyStrip_shaped {k : ℕ} {c : Char} {r : List Char}
    (hc : isPySpace c = false) :
    ∃ z, pyStrip (List.replicate k ' ' ++ c :: r) = c :: z := by
  unfold pyStrip
  rw [pyLstrip_shaped hc]
  exact pyRstrip_head hc

theorem wsLen_shaped {k : ℕ} {c : Char} {r : List Char}
    (hc : isPySpace c = false) :
    wsLen (List.replicate k ' ' ++ c :: r) = k := by
  unfold wsLen
  rw [pyLstrip_shaped hc]
  simp

theorem wrapDocstring_shaped {k : ℕ} {l : List Char} (next? : Option (List Char))
    (hl : Shaped k l) : Shaped k (wrapDocstring l next?) := by
  obtain ⟨c, r, hform, hc⟩ := hl
  cases next? with
  | none =>
    have hid : wrapDocstring l none = l := by
      unfold wrapDocstring
      dsimp only
      split <;> rfl
    rw [hid]
    exact ⟨c, r, hform, hc⟩
  | some nextLine =>
    unfold wrapDocstring
    dsimp only
    split
    · split
      · subst hform
        rw [wsLen_shaped hc]
        obtain ⟨z, hz⟩ := pyStrip_shaped hc
        rw [hz, List.append_assoc, List.append_assoc]
        exact ⟨'"', cl "\"\"" ++ ((c :: z) ++ cl "\"\"\""), rfl, by decide⟩
      · exact ⟨c, r, hform, hc⟩
    · exact ⟨c, r, hform, hc⟩

theorem wrapDocstring_noNL {l : List Char} (next? : Option (List Char))
    (h : noNL l = true) : noNL (wrapDocstring l next?) = true := by
  cases next? with
  | none =>
    have hid : wrapDocstring l none = l := by
      unfold wrapDocstring
      dsimp only
      split <;> rfl
    rw [hid]
    exact h
  | some nextLine =>
    unfold wrapDocstring
    dsimp only
    split
    · split
      · have d1 : noNL (cl "\"\"\"") = true := by decide
        simp [noNL_append, noNL_replicate, noNL_pyStrip h, d1]
      · exact h
    · exact h

theorem fixLine_shapedOr {k : ℕ} {l : List Char} (next? : Option (List Char))
    (h : Shaped k l) :
    Shaped k (fixLine l next?) ∨ Shaped 0 (fixLine l next?) := by
  unfold fixLine
  exact fixLineCore_shapedOr (Or.inl (wrapDocstring_shaped next? h))

theorem fixLine_noNL {l : List Char} (next? : Option (List Char))
    (h : noNL l = true) : noNL (fixLine l next?) = true := by
  unfold fixLine
  exact fixLineCore_noNL (wrapDocstring_noNL next? h)

/-
  Line count preservation of the two passes.
-/

theorem mapWithNext_length {f : List Char → Option (List Char) → List Char} :
    ∀ ls : List (List Char), (mapWithNext f ls).length = ls.length := by
  intro ls
  induction ls with
  | nil => rfl
  | cons a ls ih =>
    cases ls with
    | nil => rfl
    | cons b rest =>
      rw [mapWithNext]
      simp [ih]

theorem mapWithNext_mem {f : List Char → Option (List Char) → List Char}
    {ls : List (List Char)} {l : List Char} (h : l ∈ mapWithNext f ls) :
    ∃ a b, a ∈ ls ∧ l = f a b := by
  induction ls generalizing l with
  | nil => cases h
  | cons a ls ih =>
    cases ls with
    | nil =>
      rw [mapWithNext] at h
      simp only [List.mem_singleton] at h
      exact ⟨a, none, List.mem_cons_self _ _, h⟩
    | cons b rest =>
      rw [mapWithNext] at h
      rcases List.mem_cons.mp h with h | h
      · exact ⟨a, some b, List.mem_cons_self _ _, h⟩
      · obtain ⟨a2, b2, hmem, hval⟩ := ih h
        exact ⟨a2, b2, List.mem_cons_of_mem _ hmem, hval⟩

theorem mapWithNext_ne_nil {f : List Char → Option (List Char) → List Char}
    {ls : List (List Char)} (h : ls ≠ []) : mapWithNext f ls ≠ [] := by
  intro h2
  have h3 := mapWithNext_length (f := f) ls
  rw [h2] at h3
  cases ls with
  | nil => exact h rfl
  | cons a rest => simp at h3

theorem fixPythonSyntax_lines (t : List Char) :
    splitNL (fixPythonSyntax t) = mapWithNext fixLine (splitNL t) := by
  unfold fixPythonSyntax
  refine splitNL_joinNL (mapWithNext_ne_nil (splitNL_ne_nil t)) ?_
  intro l hl
  obtain ⟨a, b, hmem, hval⟩ := mapWithNext_mem hl
  rw [hval]
  exact fixLine_noNL b (noNL_of_mem_splitNL hmem)

theorem fixPythonSyntax_lineCount (t : List Char) :
    (splitNL (fixPythonSyntax t)).length = (splitNL t).length := by
  rw [fixPythonSyntax_lines, mapWithNext_length]

theorem normalizeLineAt_noNL {lines : List (List Char)} {i : ℕ}
    {line : List Char} (h : noNL line = true) :
    noNL (normalizeLineAt lines i line) = true := by
  unfold normalizeLineAt
  split
  · cases hfind : findNextCodeIndent lines i with
    | none => exact h
    | some ind =>
      dsimp only
      split
      · rw [noNL_append]
        simp [noNL_replicate, noNL_pyStrip h]
      · exact h
  · exact h

theorem normalizeIndentation_lines (t : List Char) :
    splitNL (normalizeIndentation t) =
      (splitNL t).enum.map (fun p => normalizeLineAt (splitNL t) p.1 p.2) := by
  unfold normalizeIndentation
  refine splitNL_joinNL ?_ ?_
  · intro h2
    have h3 := congrArg List.length h2
    simp only [List.length_map, List.enum_length, List.length_nil] at h3
    exact splitNL_ne_nil t (List.length_eq_zero.mp h3)
  · intro l hl
    rw [List.mem_map] at hl
    obtain ⟨p, hp, hval⟩ := hl
    have hmem : p.2 ∈ splitNL t := by
      rw [List.mem_enum_iff_get?] at hp
      exact List.get?_mem hp
    rw [← hval]
    exact normalizeLineAt_noNL (noNL_of_mem_splitNL hmem)

theorem normalizeIndentation_lineCount (t : List Char) :
    (splitNL (normalizeIndentation t)).length = (splitNL t).length := by
  rw [normalizeIndentation_lines]
  simp [List.enum_length]

/-
  Properties of the closest key search and the grouping step.
-/

/-- Invariant of the fold over the keys: the accumulator is empty when no
    processed key lies within tolerance, and otherwise holds a processed
    key within tolerance of minimal distance. -/
def closestInv (y t : ℤ) (processed : List ℤ) : Option (ℤ × ℤ) → Prop
  | none => ∀ k ∈ processed, t < |y - k|
  | some kd => kd.1 ∈ processed ∧ kd.2 = |y - kd.1| ∧ kd.2 ≤ t ∧
      ∀ k2 ∈ processed, |y - k2| ≤ t → kd.2 ≤ |y - k2|

theorem closestKey_fold (y t : ℤ) :
    ∀ (keys processed : List ℤ) (acc : Option (ℤ × ℤ)),
      closestInv y t processed acc →
      closestInv y t (processed ++ keys) (keys.foldl (closestKeyStep y t) acc) := by
  intro keys
  induction keys with
  | nil =>
    intro processed acc h
    simpa using h
  | cons k keys ih =>
    intro processed acc h
    rw [List.foldl_cons]
    have hstep : closestInv y t (processed ++ [k]) (closestKeyStep y t acc k) := by
      unfold closestKeyStep
      cases acc with
      | none =>
        dsimp only
        unfold closestInv at h
        split
        · rename_i hd
          refine ⟨by simp, rfl, hd, ?_⟩
          intro k2 hk2 hle
          rcases List.mem_append.mp hk2 with h2 | h2
          · exact absurd hle (not_le.mpr (h k2 h2))
          · rw [List.mem_singleton] at h2
            subst h2
            exact le_refl _
        · rename_i hd
          intro k2 hk2
          rcases List.mem_append.mp hk2 with h2 | h2
          · exact h k2 h2
          · rw [List.mem_singleton] at h2
            subst h2
            exact not_le.mp hd
      | some kd =>
        obtain ⟨k0, d0⟩ := kd
        obtain ⟨hmem, hdef, hdt, hmin⟩ := h
        dsimp only
        split
        · rename_i hcond
          refine ⟨by simp, rfl, hcond.2, ?_⟩
          intro k2 hk2 hle
          rcases List.mem_append.mp hk2 with h2 | h2
          · exact le_trans (le_of_lt hcond.1) (hmin k2 h2 hle)
          · rw [List.mem_singleton] at h2
            subst h2
            exact le_refl _
        · rename_i hcond
          refine ⟨List.mem_append.mpr (Or.inl hmem), hdef, hdt, ?_⟩
          intro k2 hk2 hle
          rcases List.mem_append.mp hk2 with h2 | h2
          · exact hmin k2 h2 hle
          · rw [List.mem_singleton] at h2
            subst h2
            by_contra hlt
            exact hcond ⟨by omega, hle⟩
    have h3 := ih (processed ++ [k]) _ hstep
    simpa [List.append_assoc] using h3

theorem findClosestKey_some_spec {y t : ℤ} {keys : List ℤ} {k : ℤ}
    (hk : findClosestKey y t keys = some k) :
    k ∈ keys ∧ |y - k| ≤ t ∧ ∀ k2 ∈ keys, |y - k2| ≤ t → |y - k| ≤ |y - k2| := by
  have hfold := closestKey_fold y t keys [] none (by intro k2 hk2; cases hk2)
  rw [List.nil_append] at hfold
  unfold findClosestKey at hk
  cases hacc : keys.foldl (closestKeyStep y t) none with
  | none => rw [hacc] at hk; cases hk
  | some kd =>
    rw [hacc] at hk
    obtain ⟨k0, d0⟩ := kd
    injection hk with hk2
    subst hk2
    rw [hacc] at hfold
    obtain ⟨hmem, hdef, hdt, hmin⟩ := hfold
    refine ⟨hmem, by rw [← hdef]; exact hdt, ?_⟩
    intro k2 h2 hle
    have h4 := hmin k2 h2 hle
    rw [hdef] at h4
    exact h4

theorem findClosestKey_none_spec {y t : ℤ} {keys : List ℤ}
    (hk : findClosestKey y t keys = none) :
    ∀ k2 ∈ keys, t < |y - k2| := by
  have hfold := closestKey_fold y t keys [] none (by intro k2 hk2; cases hk2)
  rw [List.nil_append] at hfold
  unfold findClosestKey at hk
  cases hacc : keys.foldl (closestKeyStep y t) none with
  | none =>
    rw [hacc] at hfold
    exact hfold
  | some kd => rw [hacc] at hk; cases hk

theorem insertFrag_some {t : ℤ} {groups : List (ℤ × List Frag)} {f : Frag}
    {k : ℤ} (h : findClosestKey f.y t (groups.map Prod.fst) = some k) :
    insertFrag t groups f =
      groups.map (fun g => if g.1 = k then (g.1, g.2 ++ [f]) else g) := by
  unfold insertFrag
  rw [h]

theorem insertFrag_none {t : ℤ} {groups : List (ℤ × List Frag)} {f : Frag}
    (h : findClosestKey f.y t (groups.map Prod.fst) = none) :
    insertFrag t groups f = groups ++ [(f.y, [f])] := by
  unfold insertFrag
  rw [h]

/-
  Sorting lemmas.
-/

theorem sortByY_sorted (fs : List Frag) :
    List.Sorted (fun a b : Frag => a.y ≤ b.y) (sortByY fs) := by
  haveI : IsTotal Frag (fun a b : Frag => a.y ≤ b.y) := ⟨fun a b => le_total a.y b.y⟩
  haveI : IsTrans Frag (fun a b : Frag => a.y ≤ b.y) :=
    ⟨fun a b c h1 h2 => le_trans h1 h2⟩
  exact List.sorted_insertionSort _ fs

theorem sortByY_perm (fs : List Frag) : List.Perm (sortByY fs) fs :=
  List.perm_insertionSort _ fs

theorem sortByX_sorted (fs : List Frag) :
    List.Sorted (fun a b : Frag => a.x ≤ b.x) (sortByX fs) := by
  haveI : IsTotal Frag (fun a b : Frag => a.x ≤ b.x) := ⟨fun a b => le_total a.x b.x⟩
  haveI : IsTrans Frag (fun a b : Frag => a.x ≤ b.x) :=
    ⟨fun a b c h1 h2 => le_trans h1 h2⟩
  exact List.sorted_insertionSort _ fs

theorem sortByX_perm (fs : List Frag) : List.Perm (sortByX fs) fs :=
  List.perm_insertionSort _ fs

theorem sortInts_sorted (xs : List Int) :
    List.Sorted (fun a b : ℤ => a ≤ b) (sortInts xs) := by
  haveI : IsTotal ℤ (fun a b : ℤ => a ≤ b) := ⟨fun a b => le_total a b⟩
  haveI : IsTrans ℤ (fun a b : ℤ => a ≤ b) := ⟨fun a b c h1 h2 => le_trans h1 h2⟩
  exact List.sorted_insertionSort _ xs

theorem sortInts_perm (xs : List Int) : List.Perm (sortInts xs) xs :=
  List.perm_insertionSort _ xs

/-
  Tolerance lemmas.
-/

theorem yTolerance_eq (h : ℕ) : yTolerance h = max 10 (h / 40) := by
  unfold yTolerance
  dsimp only
  omega

theorem yTolerance_iff (h : ℕ) (d : ℕ) :
    d ≤ yTolerance h ↔ (d : ℚ) ≤ max 10 ((h : ℚ) * 0.05 / 2) := by
  rw [yTolerance_eq]
  have hd40 : d ≤ h / 40 ↔ (d : ℚ) ≤ (h : ℚ) * 0.05 / 2 := by
    rw [Nat.le_div_iff_mul_le (by norm_num)]
    constructor
    · intro h1
      have h2 : ((d * 40 : ℕ) : ℚ) ≤ (h : ℚ) := by exact_mod_cast h1
      push_cast at h2
      linarith
    · intro h1
      have h2 : ((d * 40 : ℕ) : ℚ) ≤ (h : ℚ) := by push_cast; linarith
      exact_mod_cast h2
  rw [le_max_iff, le_max_iff, ← hd40]
  constructor
  · rintro (h1 | h1)
    · left; exact_mod_cast h1
    · right; exact h1
  · rintro (h1 | h1)
    · left; exact_mod_cast h1
    · right; exact h1

/-
  Rounding and indentation arithmetic.
-/

theorem ratFloor_eq (q : ℚ) : q.floor = Int.floor q := rfl

theorem pyRound_le_floor_add_one (q : ℚ) : pyRound q ≤ Int.floor q + 1 := by
  unfold pyRound
  dsimp only
  rw [ratFloor_eq]
  split_ifs <;> omega

theorem floor_le_pyRound (q : ℚ) : Int.floor q ≤ pyRound q := by
  unfold pyRound
  dsimp only
  rw [ratFloor_eq]
  split_ifs <;> omega

theorem pyRound_mono {q r : ℚ} (h : q ≤ r) : pyRound q ≤ pyRound r := by
  have hfl : Int.floor q ≤ Int.floor r := Int.floor_le_floor h
  rcases lt_or_eq_of_le hfl with hlt | heq
  · have h1 := pyRound_le_floor_add_one q
    have h2 := floor_le_pyRound r
    omega
  · unfold pyRound
    dsimp only
    rw [ratFloor_eq, ratFloor_eq, ← heq]
    split_ifs <;> first | omega | linarith

theorem pyRound_zero : pyRound 0 = 0 := by
  unfold pyRound
  rw [ratFloor_eq, Int.floor_zero]
  norm_num

theorem charWidthOf_pos (w : ℕ) : 0 < charWidthOf w := by
  unfold charWidthOf
  split_ifs <;> norm_num

theorem indentLevel_nonneg (w : ℕ) (off : ℤ) : 0 ≤ indentLevel w off := by
  unfold indentLevel
  exact le_max_left 0 _

theorem indentLevel_le_five (w : ℕ) (off : ℤ) : indentLevel w off ≤ 5 := by
  unfold indentLevel
  dsimp only
  omega

theorem indentLevel_mono (w : ℕ) {a b : ℤ} (h : a ≤ b) :
    indentLevel w a ≤ indentLevel w b := by
  unfold indentLevel
  dsimp only
  have hcw : (0 : ℚ) < (charWidthOf w : ℚ) := by
    exact_mod_cast charWidthOf_pos w
  have h1 : (a : ℚ) / (charWidthOf w : ℚ) ≤ (b : ℚ) / (charWidthOf w : ℚ) := by
    gcongr
  have h2 := pyRound_mono h1
  have h3 : (pyRound ((a : ℚ) / (charWidthOf w : ℚ)) : ℚ) / 4 ≤
      (pyRound ((b : ℚ) / (charWidthOf w : ℚ)) : ℚ) / 4 := by
    gcongr
  have h4 := pyRound_mono h3
  omega

/-- The six admissible leading space counts claimed by the spec. -/
def okIndent (s : ℕ) : Prop :=
  s = 0 ∨ s = 4 ∨ s = 8 ∨ s = 12 ∨ s = 16 ∨ s = 20

theorem okIndent_zero : okIndent 0 := Or.inl rfl

theorem okIndent_of_level {lvl : ℤ} (h0 : 0 ≤ lvl) (h5 : lvl ≤ 5) :
    okIndent (lvl * 4).toNat := by
  interval_cases lvl <;> simp [okIndent]

theorem indentLevel_okIndent (w : ℕ) (off : ℤ) :
    okIndent ((indentLevel w off * 4).toNat) :=
  okIndent_of_level (indentLevel_nonneg w off) (indentLevel_le_five w off)

/-
  A substitution whose pattern matches nowhere along the scan is the
  identity on the line.
-/

theorem scanHits_cons {m : Matcher} {pr : Option Char} {c : Char}
    {rest : List Char} :
    scanHits m pr (c :: rest) =
      ((m pr (c :: rest)).isSome || scanHits m (some c) rest) := rfl

theorem subScanF_noHit {m : Matcher} :
    ∀ (fuel : ℕ) (pr : Option Char) (s : List Char),
      scanHits m pr s = false → subScanF m fuel pr s = s := by
  intro fuel
  induction fuel with
  | zero =>
    intro pr s _
    cases s with
    | nil => rfl
    | cons c rest => rfl
  | succ fuel ih =>
    intro pr s h
    cases s with
    | nil => rfl
    | cons c rest =>
      rw [scanHits_cons, Bool.or_eq_false_iff] at h
      rw [subScanF]
      cases hmr : m pr (c :: rest) with
      | none => rw [ih (some c) rest h.2]
      | some nr =>
        rw [hmr] at h
        simp at h

theorem applySub_noHit {m : Matcher} {l : List Char}
    (h : scanHits m none l = false) : applySub m l = l :=
  subScanF_noHit l.length none l h

/-
  Minimum extraction: the head of the ascending sort, and the running
  fold of min used for the group minimum x.
-/

theorem foldlMin_le_seed : ∀ (r : List ℤ) (c : ℤ), r.foldl min c ≤ c := by
  intro r
  induction r with
  | nil => intro c; exact le_refl c
  | cons b r ih =>
    intro c
    rw [List.foldl_cons]
    exact le_trans (ih (min c b)) (min_le_left c b)

theorem foldlMin_le_mem : ∀ (r : List ℤ) (c x : ℤ), x ∈ r → r.foldl min c ≤ x := by
  intro r
  induction r with
  | nil => intro c x hx; cases hx
  | cons b r ih =>
    intro c x hx
    rw [List.foldl_cons]
    rcases List.mem_cons.mp hx with h | h
    · subst h
      exact le_trans (foldlMin_le_seed r (min c x)) (min_le_right c x)
    · exact ih (min c b) x h

theorem foldlMin_mem : ∀ (r : List ℤ) (c : ℤ), r.foldl min c ∈ c :: r := by
  intro r
  induction r with
  | nil => intro c; simp
  | cons b r ih =>
    intro c
    rw [List.foldl_cons]
    have h := ih (min c b)
    rcases List.mem_cons.mp h with h | h
    · rcases min_choice c b with he | he
      · rw [h.trans he]
        exact List.mem_cons_self _ _
      · rw [h.trans he]
        exact List.mem_cons_of_mem c (List.mem_cons_self b r)
    · exact List.mem_cons_of_mem c (List.mem_cons_of_mem b h)

theorem groupMinX_spec {g : List Frag} (hne : g ≠ []) :
    groupMinX g ∈ g.map (fun f => f.x) ∧
      ∀ x ∈ g.map (fun f => f.x), groupMinX g ≤ x := by
  cases g with
  | nil => exact absurd rfl hne
  | cons f gs =>
    unfold groupMinX
    rw [List.map_cons]
    refine ⟨foldlMin_mem (gs.map (fun f => f.x)) f.x, ?_⟩
    intro x hx
    rcases List.mem_cons.mp hx with h | h
    · subst h
      exact foldlMin_le_seed _ _
    · exact foldlMin_le_mem _ _ _ h

theorem sortInts_ne_nil {xs : List ℤ} (hne : xs ≠ []) : sortInts xs ≠ [] := by
  intro h
  have hperm := sortInts_perm xs
  rw [h] at hperm
  exact hne hperm.symm.eq_nil

theorem sortInts_head_min {xs : List ℤ} (hne : xs ≠ []) :
    (sortInts xs).getD 0 0 ∈ xs ∧ ∀ x ∈ xs, (sortInts xs).getD 0 0 ≤ x := by
  have hperm := sortInts_perm xs
  have hs := sortInts_sorted xs
  cases hsx : sortInts xs with
  | nil => exact absurd hsx (sortInts_ne_nil hne)
  | cons a rest =>
    rw [hsx] at hperm hs
    have hga : (a :: rest).getD 0 0 = a := rfl
    rw [hga]
    refine ⟨hperm.subset (List.mem_cons_self a rest), ?_⟩
    intro x hx
    have hx2 : x ∈ a :: rest := hperm.symm.subset hx
    rcases List.mem_cons.mp hx2 with h | h
    · subst h; exact le_refl x
    · exact (List.sorted_cons.mp hs).1 x h

theorem sortInts_getD_mem {xs : List ℤ} {i : ℕ} (hi : i < xs.length) :
    (sortInts xs).getD i 0 ∈ xs := by
  have hlen : (sortInts xs).length = xs.length := (sortInts_perm xs).length_eq
  have hi2 : i < (sortInts xs).length := by rw [hlen]; exact hi
  rw [List.getD_eq_get (sortInts xs) 0 hi2]
  exact (sortInts_perm xs).subset (List.get_mem _ _ _)

/-- Claim C3: baseline selection.  On the ascending x position list, the
    head is the minimum x over all positions; with at most three positions
    the baseline is that minimum; with more than three positions the
    baseline is the second smallest exactly when the gap between smallest
    and second smallest exceeds double the gap between second and third
    smallest, and the minimum otherwise. -/
theorem claimC3 (xs : List ℤ) (hne : xs ≠ []) :
    ((sortInts xs).getD 0 0 ∈ xs ∧ ∀ x ∈ xs, (sortInts xs).getD 0 0 ≤ x) ∧
    (xs.length ≤ 3 → baselineX (sortInts xs) = (sortInts xs).getD 0 0) ∧
    (3 < xs.length →
      ((sortInts xs).getD 2 0 - (sortInts xs).getD 1 0) * 2 <
          (sortInts xs).getD 1 0 - (sortInts xs).getD 0 0 →
      baselineX (sortInts xs) = (sortInts xs).getD 1 0) ∧
    (3 < xs.length →
      ¬(((sortInts xs).getD 2 0 - (sortInts xs).getD 1 0) * 2 <
          (sortInts xs).getD 1 0 - (sortInts xs).getD 0 0) →
      baselineX (sortInts xs) = (sortInts xs).getD 0 0) := by
  have hlen : (sortInts xs).length = xs.length := (sortInts_perm xs).length_eq
  refine ⟨sortInts_head_min hne, ?_, ?_, ?_⟩
  · intro h3
    unfold baselineX
    rw [if_neg (by omega)]
  · intro h3 hgap
    unfold baselineX
    rw [if_pos (by omega), if_pos (by rw [if_pos (by omega)]; omega)]
  · intro h3 hgap
    unfold baselineX
    rw [if_pos (by omega), if_neg (by rw [if_pos (by omega)]; omega)]

theorem claimC3_witness : baselineX (sortInts [(7 : ℤ), 0, 9, 3]) = 0 := by
  have h := ((claimC3 [(7 : ℤ), 0, 9, 3] (by simp)).2.2.2 (by simp) (by decide))
  rw [h]
  decide

/-- Claim C1: line grouping.  The fragments are walked in ascending y
    order (a stable sort of the input); an integer distance d is within
    the computed tolerance exactly when d is at most max 10 (h * 0.05 / 2)
    as the spec writes it; a walk step finding no group key within
    tolerance starts a new group keyed by the fragment y, a walk step
    finding the key of smallest distance within tolerance appends the
    fragment to that group; the grouping is the fold of this step over
    the fragments. -/
theorem claimC1 (hgt : ℕ) (frags : List Frag) (t : ℤ)
    (groups : List (ℤ × List Frag)) (f : Frag) :
    List.Sorted (fun a b : Frag => a.y ≤ b.y) (sortByY frags) ∧
    List.Perm (sortByY frags) frags ∧
    (∀ d : ℕ, d ≤ yTolerance hgt ↔ (d : ℚ) ≤ max 10 ((hgt : ℚ) * 0.05 / 2)) ∧
    (findClosestKey f.y t (groups.map Prod.fst) = none →
      (∀ k ∈ groups.map Prod.fst, t < |f.y - k|) ∧
      insertFrag t groups f = groups ++ [(f.y, [f])]) ∧
    (∀ k : ℤ, findClosestKey f.y t (groups.map Prod.fst) = some k →
      k ∈ groups.map Prod.fst ∧ |f.y - k| ≤ t ∧
      (∀ k2 ∈ groups.map Prod.fst, |f.y - k2| ≤ t → |f.y - k| ≤ |f.y - k2|) ∧
      insertFrag t groups f =
        groups.map (fun g => if g.1 = k then (g.1, g.2 ++ [f]) else g)) ∧
    groupByY t frags = frags.foldl (insertFrag t) [] :=
  ⟨sortByY_sorted frags, sortByY_perm frags, fun d => yTolerance_iff hgt d,
   fun hnone => ⟨findClosestKey_none_spec hnone, insertFrag_none hnone⟩,
   fun k hsome =>
     ⟨(findClosestKey_some_spec hsome).1, (findClosestKey_some_spec hsome).2.1,
      (findClosestKey_some_spec hsome).2.2, insertFrag_some hsome⟩,
   rfl⟩

/-- Claim C2: indentation quantization.  Offsets clamp to zero when
    negative or beyond half the image width and survive otherwise; the
    character width buckets are 6, 8 and 10 at the claimed image width
    cuts; the indentation level is round(round(offset / char width) / 4)
    clamped into zero to five; and a rendered line is that many four
    space units before the merged text of the x sorted group. -/
theorem claimC2 (w : ℕ) (b : ℤ) (g : List Frag) :
    (∀ off : ℤ, off < 0 → clampOffset w off = 0) ∧
    (∀ off : ℤ, 0 ≤ off → (w : ℚ) * 0.5 < (off : ℚ) → clampOffset w off = 0) ∧
    (∀ off : ℤ, 0 ≤ off → (off : ℚ) ≤ (w : ℚ) * 0.5 → clampOffset w off = off) ∧
    (w < 300 → charWidthOf w = 6) ∧
    (300 ≤ w → w < 600 → charWidthOf w = 8) ∧
    (600 ≤ w → charWidthOf w = 10) ∧
    (∀ off : ℤ, indentLevel w off =
      max 0 (min 5 (pyRound ((pyRound ((off : ℚ) / (charWidthOf w : ℚ)) : ℚ) / 4)))) ∧
    renderLine w b g =
      List.replicate
          ((indentLevel w (clampOffset w (groupMinX (sortByX g) - b)) * 4).toNat) ' '
        ++ mergedText (sortByX g) := by
  refine ⟨?_, ?_, ?_, ?_, ?_, ?_, fun off => rfl, rfl⟩
  · intro off h
    unfold clampOffset
    rw [if_pos h]
  · intro off h0 hhalf
    unfold clampOffset
    rw [if_neg (by omega), if_pos hhalf]
  · intro off h0 hle
    unfold clampOffset
    rw [if_neg (by omega), if_neg (not_lt.mpr hle)]
  · intro hw
    unfold charWidthOf
    rw [if_pos hw]
  · intro h3 h6
    unfold charWidthOf
    rw [if_neg (by omega), if_pos h6]
  · intro h6
    unfold charWidthOf
    rw [if_neg (by omega), if_neg (by omega)]

/-- Claim C6: for a fixed image width the indentation level is monotone
    non decreasing in the offset, and it is the claimed quantization
    formula. -/
theorem claimC6 (w : ℕ) (a b : ℤ) (hab : a ≤ b) :
    indentLevel w a ≤ indentLevel w b ∧
    indentLevel w a =
      max 0 (min 5 (pyRound ((pyRound ((a : ℚ) / (charWidthOf w : ℚ)) : ℚ) / 4))) :=
  ⟨indentLevel_mono w hab, rfl⟩

theorem claimC6_witness : indentLevel 640 10 ≤ indentLevel 640 48 :=
  (claimC6 640 10 48 (by decide)).1

/-- Claim C10: both post processing passes preserve the number of
    newline separated lines of their input. -/
theorem claimC10 (t : List Char) :
    (splitNL (fixPythonSyntax t)).length = (splitNL t).length ∧
    (splitNL (normalizeIndentation t)).length = (splitNL t).length :=
  ⟨fixPythonSyntax_lineCount t, normalizeIndentation_lineCount t⟩

/-- Claim C9: the empty detection list reconstructs to the empty string,
    and a substitution whose pattern matches nowhere along a line leaves
    the line unchanged. -/
theorem claimC9 (w hgt : ℕ) (m : Matcher) (n : ℕ) (prev : Option Char)
    (l : List Char) (hnm : scanHits m prev l = false)
    (hnm0 : scanHits m none l = false) :
    rapidocrReconstruct w hgt [] = [] ∧
    subScanF m n prev l = l ∧ applySub m l = l :=
  ⟨rfl, subScanF_noHit n prev l hnm, applySub_noHit hnm0⟩

theorem claimC9_witness :
    rapidocrReconstruct 640 100 [] = [] ∧
    subScanF tryR10 7 none (cl "hello()") = cl "hello()" ∧
    applySub tryR10 (cl "hello()") = cl "hello()" :=
  claimC9 640 100 tryR10 7 none (cl "hello()") (by decide) (by decide)

/-
  The reconstruction reads only text and position of a fragment, never
  the confidence: every stage commutes with the confidence scrub.
-/

theorem orderedInsert_map_key {α : Type} (key : α → ℤ) (g : α → α)
    (hg : ∀ a, key (g a) = key a) (a : α) :
    ∀ l : List α,
      (List.orderedInsert (fun u v => key u ≤ key v) a l).map g =
        List.orderedInsert (fun u v => key u ≤ key v) (g a) (l.map g) := by
  intro l
  induction l with
  | nil => rfl
  | cons b l ih =>
    simp only [List.orderedInsert, List.map_cons]
    by_cases hab : key a ≤ key b
    · rw [if_pos hab, if_pos (by rw [hg, hg]; exact hab)]
      rfl
    · rw [if_neg hab, if_neg (by rw [hg, hg]; exact hab)]
      rw [List.map_cons, ih]

theorem insertionSort_map_key {α : Type} (key : α → ℤ) (g : α → α)
    (hg : ∀ a, key (g a) = key a) :
    ∀ l : List α,
      (List.insertionSort (fun u v => key u ≤ key v) l).map g =
        List.insertionSort (fun u v => key u ≤ key v) (l.map g) := by
  intro l
  induction l with
  | nil => rfl
  | cons a l ih =>
    simp only [List.insertionSort, List.map_cons]
    rw [← ih]
    exact orderedInsert_map_key key g hg a _

theorem scrubConf_y (f : Frag) : (scrubConf f).y = f.y := rfl

theorem scrubConf_x (f : Frag) : (scrubConf f).x = f.x := rfl

theorem scrubGroup_fst (kg : ℤ × List Frag) : (scrubGroup kg).1 = kg.1 := rfl

theorem sortByY_map_scrub (fs : List Frag) :
    (sortByY fs).map scrubConf = sortByY (fs.map scrubConf) :=
  @insertionSort_map_key Frag (fun f => f.y) scrubConf scrubConf_y fs

theorem sortByX_map_scrub (fs : List Frag) :
    (sortByX fs).map scrubConf = sortByX (fs.map scrubConf) :=
  @insertionSort_map_key Frag (fun f => f.x) scrubConf scrubConf_x fs

theorem groupsSort_map_scrub (gs : List (ℤ × List Frag)) :
    (List.insertionSort (fun a b => a.1 ≤ b.1) gs).map scrubGroup =
      List.insertionSort (fun a b => a.1 ≤ b.1) (gs.map scrubGroup) :=
  @insertionSort_map_key (ℤ × List Frag) (fun kg => kg.1) scrubGroup scrubGroup_fst gs

theorem map_fst_scrubGroup (gs : List (ℤ × List Frag)) :
    (gs.map scrubGroup).map Prod.fst = gs.map Prod.fst := by
  induction gs with
  | nil => rfl
  | cons a gs ih => simp [scrubGroup, ih]

theorem insertFrag_map_scrub (t : ℤ) (groups : List (ℤ × List Frag)) (f : Frag) :
    insertFrag t (groups.map scrubGroup) (scrubConf f) =
      (insertFrag t groups f).map scrubGroup := by
  unfold insertFrag
  rw [map_fst_scrubGroup]
  rw [show (scrubConf f).y = f.y from rfl]
  cases hfc : findClosestKey f.y t (groups.map Prod.fst) with
  | none => simp [scrubGroup]
  | some k =>
    dsimp only
    rw [List.map_map, List.map_map]
    refine List.map_congr_left ?_
    intro kg _
    by_cases hk : kg.1 = k
    · simp [Function.comp, scrubGroup, hk]
    · simp [Function.comp, scrubGroup, hk]

theorem foldl_insertFrag_scrub (t : ℤ) :
    ∀ (fs : List Frag) (acc : List (ℤ × List Frag)),
      (fs.map scrubConf).foldl (insertFrag t) (acc.map scrubGroup) =
        (fs.foldl (insertFrag t) acc).map scrubGroup := by
  intro fs
  induction fs with
  | nil => intro acc; rfl
  | cons f fs ih =>
    intro acc
    rw [List.map_cons, List.foldl_cons, List.foldl_cons, insertFrag_map_scrub]
    exact ih (insertFrag t acc f)

theorem groupByY_map_scrub (t : ℤ) (fs : List Frag) :
    groupByY t (fs.map scrubConf) = (groupByY t fs).map scrubGroup :=
  foldl_insertFrag_scrub t fs []

theorem mergedText_map_scrub (g : List Frag) :
    mergedText (g.map scrubConf) = mergedText g := by
  unfold mergedText
  rw [List.map_map]
  rfl

theorem groupMinX_map_scrub (g : List Frag) :
    groupMinX (g.map scrubConf) = groupMinX g := by
  unfold groupMinX
  rw [List.map_map]
  rfl

theorem renderLine_map_scrub (w : ℕ) (b : ℤ) (g : List Frag) :
    renderLine w b (g.map scrubConf) = renderLine w b g := by
  unfold renderLine
  dsimp only
  rw [← sortByX_map_scrub, mergedText_map_scrub, groupMinX_map_scrub]

theorem map_render_scrub (w : ℕ) (b : ℤ) (l : List (ℤ × List Frag)) :
    (l.map scrubGroup).map (fun kg => renderLine w b kg.2) =
      l.map (fun kg => renderLine w b kg.2) := by
  induction l with
  | nil => rfl
  | cons a l ih =>
    simp only [List.map_cons, ih]
    rw [show (scrubGroup a).2 = a.2.map scrubConf from rfl,
      renderLine_map_scrub]

theorem map_x_scrub (l : List Frag) :
    (l.map scrubConf).map (fun f => f.x) = l.map (fun f => f.x) := by
  rw [List.map_map]
  rfl

theorem structuredLines_map_scrub (w hh : ℕ) (fs : List Frag) :
    structuredLines w hh (fs.map scrubConf) = structuredLines w hh fs := by
  unfold structuredLines
  dsimp only
  rw [← sortByY_map_scrub, map_x_scrub, groupByY_map_scrub, ← groupsSort_map_scrub,
    map_render_scrub]

/-- Claim C8: the reconstruction is a total function of the fragment
    list and the image dimensions, and it is determined by the observable
    fragment data alone: two input lists with the same texts and
    positions in the same order, confidences free, reconstruct to the
    identical string.  Two runs on the identical input are the special
    case of equal lists. -/
theorem claimC8 (w hh : ℕ) (fs1 fs2 : List Frag)
    (hagree : fs1.map scrubConf = fs2.map scrubConf) :
    rapidocrReconstruct w hh fs1 = rapidocrReconstruct w hh fs2 := by
  have hlen : fs1.length = fs2.length := by
    have h := congrArg List.length hagree
    simpa using h
  have hempty : fs1.isEmpty = fs2.isEmpty := by
    cases fs1 <;> cases fs2 <;> simp_all
  have hsl : structuredLines w hh fs1 = structuredLines w hh fs2 := by
    rw [← structuredLines_map_scrub w hh fs1, hagree, structuredLines_map_scrub]
  unfold rapidocrReconstruct
  rw [hempty, hsl]

theorem claimC8_witness :
    rapidocrReconstruct 640 100 [⟨cl "x=1", 0, 0, 1⟩] =
      rapidocrReconstruct 640 100 [⟨cl "x=1", 0, 0, 1 / 2⟩] :=
  claimC8 640 100 [⟨cl "x=1", 0, 0, 1⟩] [⟨cl "x=1", 0, 0, 1 / 2⟩] rfl

/-
  Space joins of good texts, soundness of the grouping, and the shape of
  every structured line.
-/

theorem joinSp_noNL :
    ∀ {ls : List (List Char)}, (∀ l ∈ ls, noNL l = true) →
      noNL (joinSp ls) = true := by
  intro ls
  induction ls with
  | nil => intro _; rfl
  | cons l ls ih =>
    intro h
    cases ls with
    | nil => exact h l (List.mem_cons_self _ _)
    | cons l2 ls2 =>
      rw [joinSp, noNL_append, Bool.and_eq_true]
      refine ⟨h l (List.mem_cons_self _ _), ?_⟩
      rw [noNL_cons, Bool.and_eq_true]
      exact ⟨by decide, ih (fun x hx => h x (List.mem_cons_of_mem _ hx))⟩

theorem joinSp_head (c : Char) (r : List Char) (ls : List (List Char)) :
    ∃ z, joinSp ((c :: r) :: ls) = c :: z := by
  cases ls with
  | nil => exact ⟨r, rfl⟩
  | cons l2 ls2 => exact ⟨r ++ ' ' :: joinSp (l2 :: ls2), rfl⟩

theorem foldl_insertFrag_sound (t : ℤ) (P : Frag → Prop) :
    ∀ (fs : List Frag) (acc : List (ℤ × List Frag)),
      (∀ kg ∈ acc, kg.2 ≠ [] ∧ ∀ f ∈ kg.2, P f) →
      (∀ f ∈ fs, P f) →
      ∀ kg ∈ fs.foldl (insertFrag t) acc, kg.2 ≠ [] ∧ ∀ f ∈ kg.2, P f := by
  intro fs
  induction fs with
  | nil => intro acc hacc _ kg hkg; exact hacc kg hkg
  | cons f fs ih =>
    intro acc hacc hfs
    rw [List.foldl_cons]
    refine ih (insertFrag t acc f) ?_ (fun f2 h2 => hfs f2 (List.mem_cons_of_mem _ h2))
    intro kg hkg
    have hPf : P f := hfs f (List.mem_cons_self _ _)
    unfold insertFrag at hkg
    cases hfc : findClosestKey f.y t (acc.map Prod.fst) with
    | some k =>
      rw [hfc] at hkg
      dsimp only at hkg
      rw [List.mem_map] at hkg
      obtain ⟨kg0, hkg0, hval⟩ := hkg
      by_cases hk : kg0.1 = k
      · rw [if_pos hk] at hval
        rw [← hval]
        refine ⟨by simp, ?_⟩
        intro f2 hf2
        rcases List.mem_append.mp hf2 with h2 | h2
        · exact (hacc kg0 hkg0).2 f2 h2
        · rw [List.mem_singleton] at h2
          subst h2
          exact hPf
      · rw [if_neg hk] at hval
        rw [← hval]
        exact hacc kg0 hkg0
    | none =>
      rw [hfc] at hkg
      dsimp only at hkg
      rcases List.mem_append.mp hkg with h2 | h2
      · exact hacc kg h2
      · rw [List.mem_singleton] at h2
        subst h2
        refine ⟨by simp, ?_⟩
        intro f2 hf2
        rw [List.mem_singleton] at hf2
        subst hf2
        exact hPf

theorem groupByY_sound {t : ℤ} {fs : List Frag} :
    ∀ kg ∈ groupByY t fs, kg.2 ≠ [] ∧ ∀ f ∈ kg.2, f ∈ fs :=
  foldl_insertFrag_sound t (fun f => f ∈ fs) fs []
    (by intro kg h; cases h) (fun f hf => hf)

theorem insertFrag_ne_nil {t : ℤ} {acc : List (ℤ × List Frag)} (f : Frag)
    (h : acc ≠ []) : insertFrag t acc f ≠ [] := by
  unfold insertFrag
  cases hfc : findClosestKey f.y t (acc.map Prod.fst) with
  | some k => simpa using h
  | none => simp

theorem foldl_insertFrag_ne_nil (t : ℤ) :
    ∀ (fs : List Frag) (acc : List (ℤ × List Frag)), acc ≠ [] →
      fs.foldl (insertFrag t) acc ≠ [] := by
  intro fs
  induction fs with
  | nil => intro acc h; exact h
  | cons f fs ih =>
    intro acc h
    rw [List.foldl_cons]
    exact ih _ (insertFrag_ne_nil f h)

theorem insertFrag_nil (t : ℤ) (f : Frag) :
    insertFrag t [] f = [(f.y, [f])] := rfl

theorem groupByY_ne_nil {t : ℤ} {fs : List Frag} (h : fs ≠ []) :
    groupByY t fs ≠ [] := by
  cases fs with
  | nil => exact absurd rfl h
  | cons f fs =>
    unfold groupByY
    rw [List.foldl_cons, insertFrag_nil]
    exact foldl_insertFrag_ne_nil t fs _ (by simp)

theorem sortByY_ne_nil {fs : List Frag} (h : fs ≠ []) : sortByY fs ≠ [] := by
  intro h2
  have hperm := sortByY_perm fs
  rw [h2] at hperm
  exact h hperm.symm.eq_nil

theorem sortByX_ne_nil {fs : List Frag} (h : fs ≠ []) : sortByX fs ≠ [] := by
  intro h2
  have hperm := sortByX_perm fs
  rw [h2] at hperm
  exact h hperm.symm.eq_nil

theorem structuredLines_ne_nil {w hh : ℕ} {frags : List Frag}
    (h : frags ≠ []) : structuredLines w hh frags ≠ [] := by
  unfold structuredLines
  dsimp only
  intro hcon
  rw [List.map_eq_nil] at hcon
  have h2 : groupByY ((yTolerance hh : ℤ)) (sortByY frags) ≠ [] :=
    groupByY_ne_nil (sortByY_ne_nil h)
  have h3 := List.perm_insertionSort
    (fun a b : (ℤ × List Frag) => a.1 ≤ b.1)
    (groupByY ((yTolerance hh : ℤ)) (sortByY frags))
  rw [hcon] at h3
  exact h2 h3.symm.eq_nil

theorem renderLine_good {w : ℕ} {b : ℤ} {g : List Frag} (hne : g ≠ [])
    (hmem : ∀ f ∈ g, Shaped 0 f.text ∧ noNL f.text = true) :
    (∃ k, okIndent k ∧ Shaped k (renderLine w b g)) ∧
      noNL (renderLine w b g) = true := by
  have hsgmem : ∀ f ∈ sortByX g, Shaped 0 f.text ∧ noNL f.text = true :=
    fun f hf => hmem f ((sortByX_perm g).subset hf)
  have hnlm : noNL (mergedText (sortByX g)) = true := by
    unfold mergedText
    refine joinSp_noNL ?_
    intro lx hlx
    rw [List.mem_map] at hlx
    obtain ⟨f, hf, hfv⟩ := hlx
    rw [← hfv]
    exact (hsgmem f hf).2
  cases hsgc : sortByX g with
  | nil => exact absurd hsgc (sortByX_ne_nil hne)
  | cons f0 gs =>
    obtain ⟨⟨c, r, hform, hc⟩, _⟩ :=
      hsgmem f0 (by rw [hsgc]; exact List.mem_cons_self _ _)
    rw [List.replicate, List.nil_append] at hform
    have hmt : ∃ z, mergedText (sortByX g) = c :: z := by
      unfold mergedText
      rw [hsgc, List.map_cons, hform]
      exact joinSp_head c r (gs.map (fun f => f.text))
    obtain ⟨z, hz⟩ := hmt
    have hrl : renderLine w b g =
        List.replicate
            ((indentLevel w
                (clampOffset w (groupMinX (sortByX g) - b)) * 4).toNat) ' '
          ++ mergedText (sortByX g) := rfl
    refine ⟨⟨_, indentLevel_okIndent w (clampOffset w (groupMinX (sortByX g) - b)),
      c, z, ?_, hc⟩, ?_⟩
    · rw [hrl, hz]
    · rw [hrl, noNL_append, Bool.and_eq_true]
      exact ⟨noNL_replicate _, hnlm⟩

theorem structuredLines_good {w hh : ℕ} {frags : List Frag}
    (hgood : ∀ f ∈ frags, Shaped 0 f.text ∧ noNL f.text = true) :
    ∀ l ∈ structuredLines w hh frags,
      (∃ k, okIndent k ∧ Shaped k l) ∧ noNL l = true := by
  intro l hl
  unfold structuredLines at hl
  dsimp only at hl
  rw [List.mem_map] at hl
  obtain ⟨kg, hkg, hval⟩ := hl
  have hperm := List.perm_insertionSort
    (fun a b : (ℤ × List Frag) => a.1 ≤ b.1)
    (groupByY ((yTolerance hh : ℤ)) (sortByY frags))
  have hkg2 : kg ∈ groupByY ((yTolerance hh : ℤ)) (sortByY frags) :=
    hperm.subset hkg
  obtain ⟨hne, hmem⟩ := groupByY_sound kg hkg2
  have hmem2 : ∀ f ∈ kg.2, Shaped 0 f.text ∧ noNL f.text = true :=
    fun f hf => hgood f ((sortByY_perm frags).subset (hmem f hf))
  rw [← hval]
  exact renderLine_good hne hmem2

/-
  The docstring lookahead: what a returned indentation is, and the
  window it ranges over.
-/

theorem getD_mem {α : Type} {l : List α} {d : α} {j : ℕ} (hj : j < l.length) :
    l.getD j d ∈ l := by
  rw [List.getD_eq_get l d hj]
  exact List.get_mem _ _ _

theorem lookFrom_eq (lines : List (List Char)) (j stop : Nat) :
    lookFrom lines j stop =
      if j < stop then
        (if nextCodeCond lines j then some (wsLen (lines.getD j []))
         else lookFrom lines (j + 1) stop)
      else none := by
  rw [lookFrom]
  unfold nextCodeCond
  split
  · rfl
  · rfl

theorem lookFrom_some_spec {lines : List (List Char)} {ind : ℕ} :
    ∀ (n j stop : ℕ), stop - j ≤ n → lookFrom lines j stop = some ind →
      ∃ jx, j ≤ jx ∧ jx < stop ∧ nextCodeCond lines jx = true ∧
        ind = wsLen (lines.getD jx []) ∧
        ∀ j2, j ≤ j2 → j2 < jx → nextCodeCond lines j2 = false := by
  intro n
  induction n with
  | zero =>
    intro j stop hle h
    rw [lookFrom_eq, if_neg (by omega)] at h
    cases h
  | succ n ih =>
    intro j stop hle h
    rw [lookFrom_eq] at h
    by_cases hjs : j < stop
    · rw [if_pos hjs] at h
      by_cases hcond : nextCodeCond lines j = true
      · rw [if_pos hcond] at h
        injection h with h
        refine ⟨j, le_refl j, hjs, hcond, h.symm, ?_⟩
        intro j2 h2a h2b
        omega
      · rw [if_neg hcond] at h
        obtain ⟨jx, h1, h2, h3, h4, h5⟩ := ih (j + 1) stop (by omega) h
        refine ⟨jx, by omega, h2, h3, h4, ?_⟩
        intro j2 h2a h2b
        by_cases hj2 : j2 = j
        · subst hj2
          exact Bool.not_eq_true _ ▸ hcond
        · exact h5 j2 (by omega) h2b
    · rw [if_neg hjs] at h
      cases h

theorem lookFrom_none_spec {lines : List (List Char)} :
    ∀ (n j stop : ℕ), stop - j ≤ n → lookFrom lines j stop = none →
      ∀ j2, j ≤ j2 → j2 < stop → nextCodeCond lines j2 = false := by
  intro n
  induction n with
  | zero =>
    intro j stop hle _ j2 h2a h2b
    omega
  | succ n ih =>
    intro j stop hle h j2 h2a h2b
    rw [lookFrom_eq, if_pos (by omega)] at h
    by_cases hcond : nextCodeCond lines j = true
    · rw [if_pos hcond] at h
      cases h
    · rw [if_neg hcond] at h
      by_cases hj2 : j2 = j
      · subst hj2
        exact Bool.not_eq_true _ ▸ hcond
      · exact ih (j + 1) stop (by omega) h j2 (by omega) h2b

theorem mapWithNext_fixLine_good {ls : List (List Char)}
    (hg : ∀ l ∈ ls, (∃ k, okIndent k ∧ Shaped k l) ∧ noNL l = true) :
    ∀ l1 ∈ mapWithNext fixLine ls,
      (∃ k, okIndent k ∧ Shaped k l1) ∧ noNL l1 = true := by
  intro l1 h1
  obtain ⟨a, nb, hmema, hva⟩ := mapWithNext_mem h1
  obtain ⟨⟨k, hok, hsh⟩, hnl⟩ := hg a hmema
  rw [hva]
  refine ⟨?_, fixLine_noNL nb hnl⟩
  rcases fixLine_shapedOr nb hsh with h2 | h2
  · exact ⟨k, hok, h2⟩
  · exact ⟨0, okIndent_zero, h2⟩

theorem normalizeLineAt_good {lines : List (List Char)} {i : ℕ}
    {line : List Char}
    (hline : ∃ k, okIndent k ∧ Shaped k line)
    (hlines : ∀ l ∈ lines, ∃ k, okIndent k ∧ Shaped k l) :
    ∃ k, okIndent k ∧ Shaped k (normalizeLineAt lines i line) := by
  unfold normalizeLineAt
  split
  · cases hfind : findNextCodeIndent lines i with
    | none => exact hline
    | some ind =>
      dsimp only
      split
      · have hstop : min (i + 3) lines.length ≤ lines.length :=
          min_le_right _ _
        obtain ⟨jx, _, hj2, _, hindeq, _⟩ :=
          lookFrom_some_spec (min (i + 3) lines.length) (i + 1)
            (min (i + 3) lines.length) (by omega) hfind
        have hjlt : jx < lines.length := lt_of_lt_of_le hj2 hstop
        obtain ⟨kj, hokj, cj, rj, hformj, hcj⟩ := hlines _ (getD_mem hjlt)
        have hws : wsLen (lines.getD jx []) = kj := by
          rw [hformj]
          exact wsLen_shaped hcj
        obtain ⟨k, _, c, r, hform, hc⟩ := hline
        obtain ⟨z, hz⟩ : ∃ z, pyStrip line = c :: z := by
          rw [hform]
          exact pyStrip_shaped hc
        refine ⟨ind, ?_, c, z, by rw [hz], hc⟩
        rw [hindeq, hws]
        exact hokj
      · exact hline
  · exact hline

/-- Claim C4 as amended: the reconstructor itself indents every line by
    an admissible amount, 0, 4, 8, 12, 16 or 20 spaces; the claimed
    whitespace invariant of the final document therefore holds for every
    fragment list whose texts are nonempty, newline free and do not
    begin with a whitespace character of the full Python set.  Without
    that proviso the invariant fails, because the merged fragment texts
    sit directly after the computed indentation: an empty first text or
    one opening with any whitespace shifts the line. -/
theorem claimC4 (w hh : ℕ) (frags : List Frag)
    (hgood : ∀ f ∈ frags, Shaped 0 f.text ∧ noNL f.text = true) :
    ∀ l ∈ splitNL (rapidocrReconstruct w hh frags), okIndent (leadSpaces l) := by
  intro l hl
  by_cases hfe : frags.isEmpty
  · unfold rapidocrReconstruct at hl
    rw [if_pos hfe] at hl
    have hsp : splitNL ([] : List Char) = [[]] := rfl
    rw [hsp, List.mem_singleton] at hl
    subst hl
    exact okIndent_zero
  · unfold rapidocrReconstruct at hl
    rw [if_neg hfe] at hl
    have hfne : frags ≠ [] := by
      intro h2
      rw [h2] at hfe
      exact hfe rfl
    have hLne : structuredLines w hh frags ≠ [] := structuredLines_ne_nil hfne
    have hLg : ∀ l0 ∈ structuredLines w hh frags,
        (∃ k, okIndent k ∧ Shaped k l0) ∧ noNL l0 = true :=
      structuredLines_good hgood
    have hsplit : splitNL (joinNL (structuredLines w hh frags)) =
        structuredLines w hh frags :=
      splitNL_joinNL hLne (fun l0 h0 => (hLg l0 h0).2)
    have hfix : splitNL (fixPythonSyntax (joinNL (structuredLines w hh frags))) =
        mapWithNext fixLine (structuredLines w hh frags) := by
      rw [fixPythonSyntax_lines, hsplit]
    have hfixg : ∀ l1 ∈ mapWithNext fixLine (structuredLines w hh frags),
        (∃ k, okIndent k ∧ Shaped k l1) ∧ noNL l1 = true :=
      mapWithNext_fixLine_good hLg
    rw [normalizeIndentation_lines, hfix, List.mem_map] at hl
    obtain ⟨p, hp, hval⟩ := hl
    have hpmem : p.2 ∈ mapWithNext fixLine (structuredLines w hh frags) := by
      rw [List.mem_enum_iff_get?] at hp
      exact List.get?_mem hp
    obtain ⟨k3, hok3, hsh3⟩ :=
      normalizeLineAt_good (hfixg p.2 hpmem).1 (fun l0 h0 => (hfixg l0 h0).1)
    rw [← hval, leadSpaces_shaped hsh3]
    exact hok3

theorem claimC4_witness : okIndent (leadSpaces (cl "x=1")) := by
  have h := claimC4 640 100 [⟨cl "x=1", 0, 0, 1⟩] (by
    intro f hf
    rw [List.mem_singleton] at hf
    subst hf
    exact ⟨⟨'x', cl "=1", rfl, by decide⟩, by decide⟩)
  have h2 : splitNL (rapidocrReconstruct 640 100 [⟨cl "x=1", 0, 0, 1⟩]) =
      [cl "x=1"] := by with_unfolding_all rfl
  exact h (cl "x=1") (by rw [h2]; exact List.mem_singleton.mpr rfl)

/-- Claim C4 counterexample: a single fragment whose recognized text
    begins with two spaces reconstructs to a document whose only line
    carries two leading spaces, which is not an admissible indentation
    amount, refuting the unconditional whitespace invariant. -/
theorem claimC4_cex :
    rapidocrReconstruct 640 100 [⟨cl "  x", 0, 0, 1⟩] = cl "  x" ∧
    leadSpaces (cl "  x") = 2 ∧ ¬ okIndent 2 :=
  ⟨by with_unfolding_all rfl, by decide, by unfold okIndent; omega⟩

/-
  Case equations of the per line docstring normalization step.
-/

theorem normalizeLineAt_no3q {lines : List (List Char)} {i : ℕ}
    {line : List Char} (h : hasSub (cl "\"\"\"") line = false) :
    normalizeLineAt lines i line = line := by
  unfold normalizeLineAt
  rw [if_neg (by simp [h])]

theorem normalizeLineAt_none {lines : List (List Char)} {i : ℕ}
    {line : List Char} (h : findNextCodeIndent lines i = none) :
    normalizeLineAt lines i line = line := by
  unfold normalizeLineAt
  split
  · rw [h]
  · rfl

theorem normalizeLineAt_zero {lines : List (List Char)} {i : ℕ}
    {line : List Char} (h : findNextCodeIndent lines i = some 0) :
    normalizeLineAt lines i line = line := by
  unfold normalizeLineAt
  split
  · rw [h]
    dsimp only
    rw [if_neg (lt_irrefl 0)]
  · rfl

theorem normalizeLineAt_fire {lines : List (List Char)} {i : ℕ}
    {line : List Char} {ind : ℕ} (h3q : hasSub (cl "\"\"\"") line = true)
    (hfind : findNextCodeIndent lines i = some ind) (hpos : 0 < ind) :
    normalizeLineAt lines i line = List.replicate ind ' ' ++ pyStrip line := by
  unfold normalizeLineAt
  rw [if_pos h3q, hfind]
  dsimp only
  rw [if_pos hpos]

/-- Claim C7: docstring indentation normalization.  The pass maps the
    per line step over the lines; a line without a triple quote is left
    unchanged; when the lookahead finds nothing, or a line of zero
    indentation, the docstring line is left unchanged; when it finds a
    nonzero indentation the docstring line becomes that indentation
    before its stripped content; and the lookahead returns the leading
    whitespace length of the first line at most two past the current one
    that strips to nonempty text without a triple quote, and nothing
    when no line of the window qualifies. -/
theorem claimC7 (t : List Char) (lines : List (List Char)) (i ind : ℕ)
    (line : List Char) :
    splitNL (normalizeIndentation t) =
      (splitNL t).enum.map (fun p => normalizeLineAt (splitNL t) p.1 p.2) ∧
    (hasSub (cl "\"\"\"") line = false → normalizeLineAt lines i line = line) ∧
    (findNextCodeIndent lines i = none → normalizeLineAt lines i line = line) ∧
    (findNextCodeIndent lines i = some 0 → normalizeLineAt lines i line = line) ∧
    (hasSub (cl "\"\"\"") line = true → findNextCodeIndent lines i = some ind →
      0 < ind →
      normalizeLineAt lines i line = List.replicate ind ' ' ++ pyStrip line) ∧
    (findNextCodeIndent lines i = some ind →
      ∃ j, i + 1 ≤ j ∧ j < min (i + 3) lines.length ∧
        nextCodeCond lines j = true ∧ ind = wsLen (lines.getD j []) ∧
        ∀ j2, i + 1 ≤ j2 → j2 < j → nextCodeCond lines j2 = false) ∧
    (findNextCodeIndent lines i = none →
      ∀ j, i + 1 ≤ j → j < min (i + 3) lines.length →
        nextCodeCond lines j = false) := by
  refine ⟨normalizeIndentation_lines t, fun h => normalizeLineAt_no3q h,
    fun h => normalizeLineAt_none h, fun h => normalizeLineAt_zero h,
    fun h1 h2 h3 => normalizeLineAt_fire h1 h2 h3, ?_, ?_⟩
  · intro hfind
    exact lookFrom_some_spec (min (i + 3) lines.length) (i + 1)
      (min (i + 3) lines.length) (by omega) hfind
  · intro hfind
    exact lookFrom_none_spec (min (i + 3) lines.length) (i + 1)
      (min (i + 3) lines.length) (by omega) hfind

/-
  The single group case: pairwise close fragments form one group, whose
  rendered line carries no indentation.
-/

theorem findClosestKey_singleton (y t k0 : ℤ) :
    findClosestKey y t [k0] = if |y - k0| ≤ t then some k0 else none := by
  unfold findClosestKey
  rw [List.foldl_cons, List.foldl_nil]
  unfold closestKeyStep
  dsimp only
  split_ifs with h
  · rfl
  · rfl

theorem insertFrag_singleGroup {t y0 : ℤ} {g : List Frag} {f : Frag}
    (h : |f.y - y0| ≤ t) :
    insertFrag t [(y0, g)] f = [(y0, g ++ [f])] := by
  unfold insertFrag
  rw [show ([((y0 : ℤ), g)].map Prod.fst) = [y0] from rfl]
  rw [findClosestKey_singleton, if_pos h]
  simp

theorem foldl_singleGroup (t y0 : ℤ) :
    ∀ (rest : List Frag) (g : List Frag),
      (∀ f ∈ rest, |f.y - y0| ≤ t) →
      rest.foldl (insertFrag t) [(y0, g)] = [(y0, g ++ rest)] := by
  intro rest
  induction rest with
  | nil => intro g _; simp
  | cons f rest ih =>
    intro g h
    rw [List.foldl_cons, insertFrag_singleGroup (h f (List.mem_cons_self _ _))]
    rw [ih (g ++ [f]) (fun f2 h2 => h f2 (List.mem_cons_of_mem _ h2))]
    simp

theorem groupByY_single {t : ℤ} {f0 : Frag} {rest : List Frag}
    (h : ∀ f ∈ rest, |f.y - f0.y| ≤ t) :
    groupByY t (f0 :: rest) = [(f0.y, f0 :: rest)] := by
  unfold groupByY
  rw [List.foldl_cons, insertFrag_nil, foldl_singleGroup t f0.y rest [f0] h]
  rfl

theorem clampOffset_nonpos {w : ℕ} {off : ℤ} (h : off ≤ 0) :
    clampOffset w off = 0 := by
  unfold clampOffset
  rcases lt_or_eq_of_le h with hlt | heq
  · rw [if_pos hlt]
  · subst heq
    rw [if_neg (lt_irrefl 0), if_neg ?_]
    push_cast
    exact not_lt.mpr (by positivity)

theorem indentLevel_zero (w : ℕ) : indentLevel w 0 = 0 := by
  unfold indentLevel
  dsimp only
  have h1 : (((0 : ℤ) : ℚ)) / (charWidthOf w : ℚ) = 0 := by norm_num
  rw [h1, pyRound_zero]
  have h2 : (((0 : ℤ) : ℚ)) / 4 = 0 := by norm_num
  rw [h2, pyRound_zero]
  omega

theorem baselineX_cases (xs : List ℤ) :
    baselineX xs = xs.getD 0 0 ∨ (3 < xs.length ∧ baselineX xs = xs.getD 1 0) := by
  unfold baselineX
  dsimp only
  by_cases h3 : 3 < xs.length
  · rw [if_pos h3]
    split
    all_goals split
    all_goals
      first
        | exact Or.inr ⟨h3, rfl⟩
        | exact Or.inl rfl
  · rw [if_neg h3]
    exact Or.inl rfl

theorem groupMinX_eq_sortedHead {fs : List Frag} (hne : fs ≠ []) :
    groupMinX (sortByX fs) = (sortInts (fs.map (fun f => f.x))).getD 0 0 := by
  have hxne : fs.map (fun f => f.x) ≠ [] := by
    cases fs with
    | nil => exact absurd rfl hne
    | cons a l => simp
  have hhead := sortInts_head_min hxne
  have hmin := groupMinX_spec (sortByX_ne_nil hne)
  have hpermmap :
      List.Perm ((sortByX fs).map (fun f => f.x)) (fs.map (fun f => f.x)) :=
    (sortByX_perm fs).map (fun f => f.x)
  apply le_antisymm
  · exact hmin.2 _ (hpermmap.symm.subset hhead.1)
  · exact hhead.2 _ (hpermmap.subset hmin.1)

theorem structuredLines_single {w hh : ℕ} {frags : List Frag} (hne : frags ≠ [])
    (htol : ∀ f1 ∈ frags, ∀ f2 ∈ frags,
      |f1.y - f2.y| ≤ ((yTolerance hh : ℕ) : ℤ)) :
    structuredLines w hh frags =
      [joinSp ((sortByX (sortByY frags)).map (fun f => f.text))] := by
  have hsne : sortByY frags ≠ [] := sortByY_ne_nil hne
  cases hfs : sortByY frags with
  | nil => exact absurd hfs hsne
  | cons f0 rest =>
    have hmemf : ∀ f ∈ sortByY frags, f ∈ frags :=
      fun f hf => (sortByY_perm frags).subset hf
    have hf0 : f0 ∈ frags := hmemf f0 (by rw [hfs]; exact List.mem_cons_self _ _)
    have htol2 : ∀ f ∈ rest, |f.y - f0.y| ≤ ((yTolerance hh : ℕ) : ℤ) := by
      intro f hf
      exact htol f (hmemf f (by rw [hfs]; exact List.mem_cons_of_mem _ hf)) f0 hf0
    unfold structuredLines
    dsimp only
    rw [hfs, groupByY_single htol2]
    rw [show List.insertionSort (fun a b : (ℤ × List Frag) => a.1 ≤ b.1)
      [(f0.y, f0 :: rest)] = [(f0.y, f0 :: rest)] from rfl]
    rw [List.map_singleton]
    have hminx : groupMinX (sortByX (f0 :: rest)) =
        (sortInts ((f0 :: rest).map (fun f => f.x))).getD 0 0 :=
      groupMinX_eq_sortedHead (List.cons_ne_nil f0 rest)
    have hB0 : groupMinX (sortByX (f0 :: rest)) -
        baselineX (sortInts ((f0 :: rest).map (fun f => f.x))) ≤ 0 := by
      rcases baselineX_cases (sortInts ((f0 :: rest).map (fun f => f.x))) with
        hb | ⟨hlen3, hb⟩
      · rw [hminx, hb]
        omega
      · rw [hminx, hb]
        have hlen : (sortInts ((f0 :: rest).map (fun f => f.x))).length =
            ((f0 :: rest).map (fun f => f.x)).length :=
          (sortInts_perm _).length_eq
        have hmem1 : (sortInts ((f0 :: rest).map (fun f => f.x))).getD 1 0 ∈
            ((f0 :: rest).map (fun f => f.x)) :=
          sortInts_getD_mem (by omega)
        have hle := (sortInts_head_min (by simp)).2 _ hmem1
        omega
    have hoff : clampOffset w (groupMinX (sortByX (f0 :: rest)) -
        baselineX (sortInts ((f0 :: rest).map (fun f => f.x)))) = 0 :=
      clampOffset_nonpos hB0
    have hrl : renderLine w
        (baselineX (sortInts ((f0 :: rest).map (fun f => f.x)))) (f0 :: rest) =
        List.replicate
            ((indentLevel w (clampOffset w (groupMinX (sortByX (f0 :: rest)) -
              baselineX (sortInts ((f0 :: rest).map (fun f => f.x))))) * 4).toNat)
            ' '
          ++ mergedText (sortByX (f0 :: rest)) := rfl
    rw [hrl, hoff, indentLevel_zero]
    simp [mergedText]

/-- Claim C5 as amended: for a nonempty fragment list with newline free
    texts and pairwise y distances within the vertical tolerance, the
    structured text before post processing is exactly one line holding
    the texts joined by single spaces in ascending x order, and the
    final output is that join run through the syntax correction pass and
    the docstring normalization pass, still exactly one line.  The final
    output is not in general the plain join itself, because the syntax
    pass can rewrite the text. -/
theorem claimC5 (w hh : ℕ) (frags : List Frag) (hne : frags ≠ [])
    (hnl : ∀ f ∈ frags, noNL f.text = true)
    (htol : ∀ f1 ∈ frags, ∀ f2 ∈ frags,
      |f1.y - f2.y| ≤ ((yTolerance hh : ℕ) : ℤ)) :
    List.Sorted (fun a b : Frag => a.x ≤ b.x) (sortByX (sortByY frags)) ∧
    List.Perm (sortByX (sortByY frags)) frags ∧
    structuredLines w hh frags =
      [joinSp ((sortByX (sortByY frags)).map (fun f => f.text))] ∧
    rapidocrReconstruct w hh frags =
      normalizeIndentation (fixPythonSyntax
        (joinSp ((sortByX (sortByY frags)).map (fun f => f.text)))) ∧
    (splitNL (rapidocrReconstruct w hh frags)).length = 1 := by
  have hsl := @structuredLines_single w hh frags hne htol
  have hperm : List.Perm (sortByX (sortByY frags)) frags :=
    (sortByX_perm (sortByY frags)).trans (sortByY_perm frags)
  have hfe : ¬ frags.isEmpty = true := by
    cases frags with
    | nil => exact absurd rfl hne
    | cons a l => simp
  have heq : rapidocrReconstruct w hh frags =
      normalizeIndentation (fixPythonSyntax
        (joinSp ((sortByX (sortByY frags)).map (fun f => f.text)))) := by
    unfold rapidocrReconstruct
    rw [if_neg hfe, hsl]
    rw [show joinNL [joinSp ((sortByX (sortByY frags)).map (fun f => f.text))] =
      joinSp ((sortByX (sortByY frags)).map (fun f => f.text)) from rfl]
  have hjoin : noNL (joinSp ((sortByX (sortByY frags)).map (fun f => f.text)))
      = true := by
    refine joinSp_noNL ?_
    intro lx hlx
    rw [List.mem_map] at hlx
    obtain ⟨f, hf, hv⟩ := hlx
    rw [← hv]
    exact hnl f (hperm.subset hf)
  refine ⟨sortByX_sorted (sortByY frags), hperm, hsl, heq, ?_⟩
  rw [heq, normalizeIndentation_lineCount, fixPythonSyntax_lineCount,
    splitNL_of_noNL hjoin]
  rfl

theorem claimC5_witness :
    structuredLines 640 100 [⟨cl "b", 0, 3, 1⟩, ⟨cl "a", 5, 0, 1⟩] =
      [cl "b a"] := by
  have h := (claimC5 640 100 [⟨cl "b", 0, 3, 1⟩, ⟨cl "a", 5, 0, 1⟩]
    (by simp) (by decide) (by decide)).2.2.1
  rw [h]
  with_unfolding_all rfl

/-- Claim C5 counterexample: a single fragment, trivially within
    tolerance of itself, whose text the syntax pass rewrites.  The
    final output is one line, but it is not the fragments' texts joined
    by single spaces: the join reads importx while the output holds a
    space after the import keyword. -/
theorem claimC5_cex :
    rapidocrReconstruct 640 100 [⟨cl "importx", 0, 0, 1⟩] = cl "import x" ∧
    joinSp ((sortByX (sortByY [⟨cl "importx", 0, 0, 1⟩])).map (fun f => f.text)) =
      cl "importx" ∧
    cl "import x" ≠ cl "importx" :=
  ⟨by with_unfolding_all rfl, by with_unfolding_all rfl, by decide⟩

end ScreenOCR
